import Mathlib

/-!
# Verification of the jloan debt-payoff calculation engine

This file is a shallow embedding, in Lean 4, of the strategy-calculation
module of the jloan repository (`strategy-calculations`): the amortization
primitives (`calculateMonthlyRate`, `calculatePayoffDate`,
`calculateTotalInterest`), the single-month budget allocator
(`distributeBudgetAcrossLoans`), the month-by-month rollover simulator
(`simulateLoanPayoff`) and the projection aggregator
(`calculateStrategyProjections`).

Modelling conventions:
* JavaScript numbers are modelled as exact rationals (`ℚ`); every epsilon
  comparison (`> 0.01`, `<= 0.01`, `> 0.001`) of the source is kept literally
  as a comparison against `1/100` or `1/1000`.
* JavaScript `Date` values are modelled as their millisecond timestamps
  (`ℤ`, milliseconds since the Unix epoch).  `date.setMonth(date.getMonth() + k)`
  is modelled by `addMonthsMs`, proleptic-Gregorian month addition at UTC
  (the ECMAScript calendar), and `new Date(t + ms)` by integer addition.
* JavaScript `Record<number, number>` objects keyed by loan ids are modelled
  as total functions `ℕ → ℚ` built with `Function.update`, starting from the
  constant-0 function (reads the source guards with `|| 0` default to 0).
* The two `while` loops of the source that are not structurally bounded are
  given an explicit fuel parameter that provably dominates their iteration
  count; reaching fuel 0 is signalled (`Option`) or returns the current state,
  and is unreachable for the fuel supplied at the call sites.
-/

-- Core `Rat` arithmetic is `@[irreducible]`; re-allow definitional reduction
-- so that concrete runs of the embedded engine can be evaluated by `decide`.
set_option allowUnsafeReducibility true
attribute [local semireducible] Rat.inv Rat.mul Rat.add Rat.sub Rat.neg Rat.div

-- Concrete runs of the embedded engine reduce through hundreds of nested
-- rational operations.
set_option maxRecDepth 1000000

namespace JLoan

/-- Floor of a rational as an integer (the denominator of a `Rat` is positive,
so flooring is floor division of the numerator by the denominator). -/
def ratFloor (q : ℚ) : ℤ := Int.fdiv q.num q.den

/-- JavaScript `Math.round`: round half toward positive infinity,
`Math.round(x) = ⌊x + 0.5⌋`. -/
def jsRound (q : ℚ) : ℤ := ratFloor (q + 1/2)

/-- The cent rounding `Math.round(x * 100) / 100` used by the source. -/
def roundCents (q : ℚ) : ℚ := (jsRound (q * 100) : ℚ) / 100

/-- Ceiling of a rational, clamped to `ℕ`; used only to compute fuel bounds. -/
def ceilNat (q : ℚ) : ℕ := (Int.fdiv (q.num + q.den - 1) q.den).toNat

/-! ## UTC calendar arithmetic

`calculatePayoffDate` and the simulator advance dates with
`d.setMonth(d.getMonth() + k)`.  ECMAScript dates use the proleptic Gregorian
calendar; we model the (UTC) month addition on millisecond timestamps with the
standard civil-calendar conversions, using floor division as ECMA-262 does. -/

/-- Days since 1970-01-01 of the civil date `(y, m, d)` (month `1..12`),
proleptic Gregorian calendar. -/
def daysFromCivil (y m d : ℤ) : ℤ :=
  let y' := if m ≤ 2 then y - 1 else y
  let era := Int.fdiv y' 400
  let yoe := y' - era * 400
  let mp := Int.fmod (m + 9) 12
  let doy := Int.fdiv (153 * mp + 2) 5 + d - 1
  let doe := yoe * 365 + Int.fdiv yoe 4 - Int.fdiv yoe 100 + doy
  era * 146097 + doe - 719468

/-- Civil date `(y, m, d)` of a day count since 1970-01-01. -/
def civilFromDays (z : ℤ) : ℤ × ℤ × ℤ :=
  let z' := z + 719468
  let era := Int.fdiv z' 146097
  let doe := z' - era * 146097
  let yoe := Int.fdiv (doe - Int.fdiv doe 1460 + Int.fdiv doe 36524 - Int.fdiv doe 146096) 365
  let y := yoe + era * 400
  let doy := doe - (365 * yoe + Int.fdiv yoe 4 - Int.fdiv yoe 100)
  let mp := Int.fdiv (5 * doy + 2) 153
  let d := doy - Int.fdiv (153 * mp + 2) 5 + 1
  let m := if mp < 10 then mp + 3 else mp - 9
  (if m ≤ 2 then y + 1 else y, m, d)

/-- Millisecond timestamp of `date.setMonth(date.getMonth() + k)` (UTC):
decompose into civil date and time of day, add `k` months keeping the
day-of-month (overflow runs into the following month, as in ECMAScript),
recompose. -/
def addMonthsMs (ms : ℤ) (k : ℤ) : ℤ :=
  let day := Int.fdiv ms 86400000
  let timeOfDay := Int.fmod ms 86400000
  let c := civilFromDays day
  let total := c.1 * 12 + (c.2.1 - 1) + k
  let y2 := Int.fdiv total 12
  let m2 := Int.fmod total 12 + 1
  daysFromCivil y2 m2 c.2.2 * 86400000 + timeOfDay

/-! ## Amortization primitives -/

/-- Source `calculateMonthlyRate(apr) = apr / 100 / 12`. -/
def calculateMonthlyRate (apr : ℚ) : ℚ := apr / 100 / 12

/-- The `while` loop of `calculatePayoffDate`
(`while (currentBalance > 0.01 && months < maxMonths)`), with the remaining
month budget (`maxMonths - months`) as the structural fuel.  Returns `none`
when the loop hits the `principal <= 0` early return (never-payoff), and
`some n` with the number of iterations performed at normal loop exit. -/
def payoffLoopMonths (monthlyRate monthlyPayment : ℚ) : ℚ → ℕ → Option ℕ
  | _, 0 => some 0
  | currentBalance, fuel + 1 =>
    if currentBalance > 1/100 then
      let interest := currentBalance * monthlyRate
      let principal := monthlyPayment - interest
      if principal ≤ 0 then none
      else
        (payoffLoopMonths monthlyRate monthlyPayment
          (max 0 (currentBalance - principal)) fuel).map (· + 1)
    else some 0

/-- Source `calculatePayoffDate(balance, monthlyPayment, interestRate, startDate)`,
dates as millisecond timestamps.  The never-payoff early return is
`new Date(startDate.getTime() + maxMonths * 30 * 24 * 60 * 60 * 1000)`;
the normal return advances `startDate` by the elapsed months via `setMonth`. -/
def calculatePayoffDate (balance monthlyPayment interestRate : ℚ)
    (startDate : ℤ) : ℤ :=
  if monthlyPayment ≤ 0 ∨ balance ≤ 0 then startDate
  else
    match payoffLoopMonths (calculateMonthlyRate interestRate) monthlyPayment
        balance 600 with
    | none => startDate + 600 * 30 * 24 * 60 * 60 * 1000
    | some months => addMonthsMs startDate months

/-- Months to payoff implied by `calculatePayoffDate`: the loop's month count,
with the never-payoff early return counted as the full 600-month horizon, and
degenerate inputs (which return `startDate` unchanged) as 0. -/
def payoffMonthsCount (balance monthlyPayment interestRate : ℚ) : ℕ :=
  if monthlyPayment ≤ 0 ∨ balance ≤ 0 then 0
  else
    match payoffLoopMonths (calculateMonthlyRate interestRate) monthlyPayment
        balance 600 with
    | none => 600
    | some months => months

/-- The value of `currentBalance` tracked by `calculatePayoffDate`'s loop after
`k` iterations: while the loop is still running (`balance > 0.01`, month budget
left, `principal > 0`) the balance is updated to
`max 0 (currentBalance - principal)`; once any exit condition holds it stays. -/
def payoffBalanceAt (monthlyRate monthlyPayment balance : ℚ) : ℕ → ℚ
  | 0 => balance
  | k + 1 =>
    let bal := payoffBalanceAt monthlyRate monthlyPayment balance k
    if bal > 1/100 ∧ k < 600 ∧ ¬(monthlyPayment - bal * monthlyRate ≤ 0) then
      max 0 (bal - (monthlyPayment - bal * monthlyRate))
    else bal

/-- The `while` loop of `calculateTotalInterest`
(`while (currentBalance > 0.01 && totalInterest < balance * 100)`).  The
source loop has no month counter; the fuel only bounds the embedding, and
`none` reports that the loop is still running after `fuel` iterations. -/
def totalInterestLoop (monthlyRate monthlyPayment bound : ℚ) :
    ℚ → ℚ → ℕ → Option ℚ
  | _, _, 0 => none
  | currentBalance, totalInterest, fuel + 1 =>
    if currentBalance > 1/100 ∧ totalInterest < bound then
      let interest := currentBalance * monthlyRate
      let principal := monthlyPayment - interest
      if principal ≤ 0 then some totalInterest
      else
        totalInterestLoop monthlyRate monthlyPayment bound
          (max 0 (currentBalance - principal)) (totalInterest + interest) fuel
    else some totalInterest

/-- Fuel that dominates the iteration count of `totalInterestLoop`: while the
balance stays in `[0, balance]` the principal repaid each month is at least
`monthlyPayment - balance * monthlyRate` (for a nonnegative rate) or at least
`monthlyPayment` (for a negative rate), so the balance reaches the `0.01`
threshold within `balance / principal + 2` iterations. -/
def totalInterestFuel (balance monthlyPayment interestRate : ℚ) : ℕ :=
  let r := calculateMonthlyRate interestRate
  let d := monthlyPayment - balance * r
  if 0 ≤ r ∧ 0 < d then ceilNat (balance / d) + 2
  else ceilNat (balance / monthlyPayment) + 2

/-- Source `calculateTotalInterest(balance, monthlyPayment, interestRate)`. -/
def calculateTotalInterest (balance monthlyPayment interestRate : ℚ) : ℚ :=
  if monthlyPayment ≤ 0 ∨ balance ≤ 0 then 0
  else
    roundCents
      ((totalInterestLoop (calculateMonthlyRate interestRate) monthlyPayment
          (balance * 100) balance 0
          (totalInterestFuel balance monthlyPayment interestRate)).getD 0)

/-! ## Data model -/

/-- A loan record as consumed by the engine (decimal-as-string fields already
converted by `Number(...)`, dates as millisecond timestamps). -/
structure Loan where
  id : ℕ
  currentBalance : ℚ
  minimumPayment : ℚ
  interestRate : ℚ
  startDate : ℤ
  priorityOrder : Option ℤ
  isActive : Bool
deriving DecidableEq

/-- The active monthly budget record. -/
structure MonthlyBudget where
  monthlyAllocation : ℚ
deriving DecidableEq

/-- The strategy selector; the TypeScript `null` is `Option.none` at use
sites. -/
inductive StrategyType where
  | snowball
  | avalanche
  | custom
deriving DecidableEq

/-- Per-loan engine output. -/
structure PaymentProjection where
  loanId : ℕ
  monthlyPayment : ℚ
  monthsToPayoff : ℕ
  totalInterest : ℚ
  payoffDate : ℤ
deriving DecidableEq

/-- Aggregate engine output.  `extraPaymentAllocations` is the id-keyed
object, modelled as an association list in insertion order. -/
structure StrategyProjection where
  loans : List PaymentProjection
  totalMonths : ℕ
  totalInterest : ℚ
  interestSavings : ℚ
  timeSavings : ℤ
  extraPaymentAllocations : List (ℕ × ℚ)
deriving DecidableEq

/-- Source `calculateMonthlyObligation(loans)`: sum of the active loans' minimum
payments. -/
def calculateMonthlyObligation (loans : List Loan) : ℚ :=
  ((loans.filter (·.isActive)).map (·.minimumPayment)).sum

/-- Source `calculateAvailableExtraFunds(monthlyAllocation, loans)`. -/
def calculateAvailableExtraFunds (monthlyAllocation : ℚ) (loans : List Loan) : ℚ :=
  max 0 (monthlyAllocation - calculateMonthlyObligation loans)

/-! ## Single-month budget allocator -/

/-- The strategy sort of `distributeBudgetAcrossLoans`: JavaScript
`Array.prototype.sort` is a stable sort, and a stable sort under a total
comparator is the unique permutation that is ascending under the comparator
and keeps ties in input order, so any stable sorting algorithm models it;
`List.insertionSort` (insert before the first element that is not strictly
smaller) is stable. -/
def sortLoansByStrategy (strategyType : StrategyType) (activeLoans : List Loan) :
    List Loan :=
  match strategyType with
  | .snowball =>
      activeLoans.insertionSort fun a b => a.currentBalance ≤ b.currentBalance
  | .avalanche =>
      activeLoans.insertionSort fun a b => b.interestRate ≤ a.interestRate
  | .custom =>
      activeLoans.insertionSort fun a b =>
        a.priorityOrder.getD 999 ≤ b.priorityOrder.getD 999

/-- The distribution `while` loop of `distributeBudgetAcrossLoans`
(source lines 162-210).  `currentLoanIndex < sortedLoans.length` is carried as
the list of not-yet-passed loans; the loop repeats at the same index when
neither `isPaidOff` nor `cantTakeMore` holds and extra funds remain, so a fuel
parameter bounds the embedding (each such repeat consumes more than `0.01` of
`remainingExtra`, so the fuel chosen at the call site is never exhausted). -/
def distributeExtraAux :
    ℕ → List Loan → ℚ → (ℕ → ℚ) → (ℕ → ℚ)
  | 0, _, _, allocations => allocations
  | _ + 1, [], _, allocations => allocations
  | fuel + 1, loan :: rest, remainingExtra, allocations =>
    if remainingExtra > 1/100 then
      let currentBalance := loan.currentBalance
      let currentAllocation := allocations loan.id
      let monthlyRate := calculateMonthlyRate loan.interestRate
      let interest := currentBalance * monthlyRate
      let maxPrincipalPayment := currentBalance
      let currentPrincipalPayment := max 0 (currentAllocation - interest)
      let remainingPrincipalCapacity := maxPrincipalPayment - currentPrincipalPayment
      let additionalPayment :=
        if remainingPrincipalCapacity > 1/100 then
          min remainingExtra remainingPrincipalCapacity
        else 0
      let allocations' :=
        Function.update allocations loan.id (currentAllocation + additionalPayment)
      let remainingExtra' := remainingExtra - additionalPayment
      let newTotalPayment := allocations' loan.id
      let newPrincipalPayment := max 0 (newTotalPayment - interest)
      if newPrincipalPayment ≥ currentBalance - 1/100 ∨
          remainingPrincipalCapacity ≤ 1/100 then
        distributeExtraAux fuel rest remainingExtra' allocations'
      else if remainingExtra' ≤ 1/100 then allocations'
      else distributeExtraAux fuel (loan :: rest) remainingExtra' allocations'
    else allocations

/-- The id-keyed object of minimum payments
(`activeLoans.forEach(loan => { allocations[loan.id] = minimumPayment })`). -/
def minimumAllocations (activeLoans : List Loan) : ℕ → ℚ :=
  activeLoans.foldl
    (fun allocations loan => Function.update allocations loan.id loan.minimumPayment)
    (fun _ => 0)

/-- Source `distributeBudgetAcrossLoans(loans, monthlyAllocation, strategyType)`. -/
def distributeBudgetAcrossLoans (loans : List Loan) (monthlyAllocation : ℚ)
    (strategyType : Option StrategyType) : ℕ → ℚ :=
  let activeLoans := loans.filter (·.isActive)
  let allocations := minimumAllocations activeLoans
  let totalMinimumPayments := calculateMonthlyObligation loans
  let extraFunds := monthlyAllocation - totalMinimumPayments
  match strategyType with
  | none => allocations
  | some strategy =>
    if extraFunds ≤ 0 then allocations
    else
      distributeExtraAux
        (100 * ceilNat extraFunds + activeLoans.length + 2)
        (sortLoansByStrategy strategy activeLoans) extraFunds allocations

/-! ## Multi-loan rollover simulator -/

/-- The mutable working copy of a loan used by `simulateLoanPayoff`
(`priorityOrder ?? 999` already applied). -/
structure WLoan where
  id : ℕ
  currentBalance : ℚ
  minimumPayment : ℚ
  interestRate : ℚ
  startDate : ℤ
  priorityOrder : ℤ
deriving DecidableEq

/-- The working copy construction at the top of `simulateLoanPayoff`. -/
def toWorking (loan : Loan) : WLoan :=
  ⟨loan.id, loan.currentBalance, loan.minimumPayment, loan.interestRate,
    loan.startDate, loan.priorityOrder.getD 999⟩

/-- The initial projection record for a working loan. -/
def initProjection (loan : WLoan) : PaymentProjection :=
  ⟨loan.id, loan.minimumPayment, 0, 0, loan.startDate⟩

/-- The `monthlyRateCache`: id-keyed object of pre-calculated monthly rates. -/
def buildRateCache (workingLoans : List WLoan) : ℕ → ℚ :=
  workingLoans.foldl
    (fun cache loan =>
      Function.update cache loan.id (calculateMonthlyRate loan.interestRate))
    (fun _ => 0)

/-- The per-month strategy sort inside `simulateLoanPayoff` (stable, see
`sortLoansByStrategy`). -/
def sortWorkingByStrategy (strategyType : StrategyType)
    (workingLoans : List WLoan) : List WLoan :=
  match strategyType with
  | .snowball =>
      workingLoans.insertionSort fun a b => a.currentBalance ≤ b.currentBalance
  | .avalanche =>
      workingLoans.insertionSort fun a b => b.interestRate ≤ a.interestRate
  | .custom =>
      workingLoans.insertionSort fun a b => a.priorityOrder ≤ b.priorityOrder

/-- The id-keyed object of this month's payments, initialised to each working
loan's minimum payment. -/
def minimumPaymentsObject (workingLoans : List WLoan) : ℕ → ℚ :=
  workingLoans.foldl
    (fun payments loan => Function.update payments loan.id loan.minimumPayment)
    (fun _ => 0)

/-- The extra-funds `for` loop inside `simulateLoanPayoff` (source lines
281-296): one pass over the sorted working loans, breaking once
`availableFunds <= 0.01`. -/
def distributeExtraSim (cache : ℕ → ℚ) :
    List WLoan → (ℕ → ℚ) → ℚ → (ℕ → ℚ) × ℚ
  | [], payments, availableFunds => (payments, availableFunds)
  | loan :: rest, payments, availableFunds =>
    if availableFunds ≤ 1/100 then (payments, availableFunds)
    else
      let monthlyRate := cache loan.id
      let interest := loan.currentBalance * monthlyRate
      let currentPayment := payments loan.id
      let currentPrincipal := max 0 (currentPayment - interest)
      let maxPrincipal := loan.currentBalance
      let remainingCapacity := maxPrincipal - currentPrincipal
      if remainingCapacity > 1/100 then
        let additionalPayment := min availableFunds remainingCapacity
        distributeExtraSim cache rest
          (Function.update payments loan.id (currentPayment + additionalPayment))
          (availableFunds - additionalPayment)
      else distributeExtraSim cache rest payments availableFunds

/-- The object `paymentsThisMonth` as computed at the top of each simulated month:
minimum payments for every working loan, then, when extra funds remain and a
strategy is selected, the extra distribution over the strategy-sorted loans. -/
def monthPayments (strategyType : Option StrategyType) (monthlyAllocation : ℚ)
    (cache : ℕ → ℚ) (workingLoans : List WLoan) : ℕ → ℚ :=
  let payments := minimumPaymentsObject workingLoans
  let availableFunds :=
    monthlyAllocation - (workingLoans.map (·.minimumPayment)).sum
  match strategyType with
  | some strategy =>
    if availableFunds > 1/100 then
      (distributeExtraSim cache (sortWorkingByStrategy strategy workingLoans)
        payments availableFunds).1
    else payments
  | none => payments

/-- Mutation of the first projection whose `loanId` matches (JavaScript
`projections.find(p => p.loanId === loan.id)` followed by field updates). -/
def updateFirstProj (projections : List PaymentProjection) (loanId : ℕ)
    (f : PaymentProjection → PaymentProjection) : List PaymentProjection :=
  match projections with
  | [] => []
  | p :: ps =>
    if p.loanId = loanId then f p :: ps
    else p :: updateFirstProj ps loanId f

/-- The apply-payments `for` loop of a simulated month (source lines 300-327):
per loan, accrue interest, cap the principal at the remaining balance, update
the balance, the projection record and the running interest total, and record
the loan id when the new balance is `<= 0.01`. -/
def applyMonth (cache payments : ℕ → ℚ) (month : ℕ) :
    List WLoan → List PaymentProjection → ℚ → List ℕ →
    List WLoan × List PaymentProjection × ℚ × List ℕ
  | [], projections, totalInterestPaid, paidOffLoans =>
    ([], projections, totalInterestPaid, paidOffLoans)
  | loan :: rest, projections, totalInterestPaid, paidOffLoans =>
    let payment := payments loan.id
    let monthlyRate := cache loan.id
    let interest := loan.currentBalance * monthlyRate
    let principal := min loan.currentBalance (max 0 (payment - interest))
    let totalInterestPaid' := totalInterestPaid + interest
    let newBalance := max 0 (loan.currentBalance - principal)
    let projections' := updateFirstProj projections loan.id fun p =>
      { p with
        totalInterest := p.totalInterest + interest
        monthlyPayment := max p.monthlyPayment payment }
    let retired : Bool := newBalance ≤ 1/100
    let projections'' :=
      if retired then
        updateFirstProj projections' loan.id fun p =>
          { p with
            monthsToPayoff := month + 1
            payoffDate := addMonthsMs loan.startDate (month + 1) }
      else projections'
    let paidOffLoans' := if retired then paidOffLoans ++ [loan.id] else paidOffLoans
    let result :=
      applyMonth cache payments month rest projections'' totalInterestPaid' paidOffLoans'
    ({ loan with currentBalance := newBalance } :: result.1, result.2)

/-- The simulator state: the working set, the projection records, the month
counter and the running interest total. -/
structure SimState where
  workingLoans : List WLoan
  projections : List PaymentProjection
  month : ℕ
  totalInterestPaid : ℚ
deriving DecidableEq

/-- One iteration of the outer `while (workingLoans.length > 0 && month <
maxMonths)` loop of `simulateLoanPayoff`; the identity once the loop has
exited. -/
def simStep (monthlyAllocation : ℚ) (strategyType : Option StrategyType)
    (cache : ℕ → ℚ) (s : SimState) : SimState :=
  if s.workingLoans = [] ∨ 600 ≤ s.month then s
  else
    let payments := monthPayments strategyType monthlyAllocation cache s.workingLoans
    let applied :=
      applyMonth cache payments s.month s.workingLoans s.projections
        s.totalInterestPaid []
    let paidOffLoans := applied.2.2.2
    { workingLoans := applied.1.filter fun loan => ¬ paidOffLoans.contains loan.id
      projections := applied.2.1
      month := s.month + 1
      totalInterestPaid := applied.2.2.1 }

/-- The simulator state entering the loop. -/
def simInit (loans : List Loan) : SimState :=
  let workingLoans := loans.map toWorking
  ⟨workingLoans, workingLoans.map initProjection, 0, 0⟩

/-- The simulator state after `k` iterations of the outer loop.  The month
counter increases by one per live iteration, so 600 iterations always reach
the loop's exit; `simStateAt loans a st 600` is the state after the `while`
loop of `simulateLoanPayoff loans a st` finishes. -/
def simStateAt (loans : List Loan) (monthlyAllocation : ℚ)
    (strategyType : Option StrategyType) (k : ℕ) : SimState :=
  (simStep monthlyAllocation strategyType (buildRateCache (loans.map toWorking)))^[k]
    (simInit loans)

/-- The outer loop with its exit test made structural (stops unfolding once
the working set is empty or the month cap is reached); extensionally equal to
`simStep^[fuel]` because `simStep` is the identity on exited states. -/
def simLoop (monthlyAllocation : ℚ) (strategyType : Option StrategyType)
    (cache : ℕ → ℚ) : ℕ → SimState → SimState
  | 0, s => s
  | fuel + 1, s =>
    if s.workingLoans = [] ∨ 600 ≤ s.month then s
    else
      simLoop monthlyAllocation strategyType cache fuel
        (simStep monthlyAllocation strategyType cache s)

/-- The result record of `simulateLoanPayoff`. -/
structure SimResult where
  projections : List PaymentProjection
  totalMonths : ℕ
  totalInterest : ℚ
deriving DecidableEq

/-- Source `simulateLoanPayoff(loans, monthlyAllocation, strategyType)`: run the
loop, then assign the final month to loans never retired, take the maximum
`monthsToPayoff` (with 0 floor) and round the interest total to cents. -/
def simulateLoanPayoff (loans : List Loan) (monthlyAllocation : ℚ)
    (strategyType : Option StrategyType) : SimResult :=
  let final :=
    simLoop monthlyAllocation strategyType (buildRateCache (loans.map toWorking))
      600 (simInit loans)
  let projections :=
    final.workingLoans.foldl
      (fun ps loan =>
        updateFirstProj ps loan.id fun p =>
          if p.monthsToPayoff = 0 then
            { p with
              monthsToPayoff := final.month
              payoffDate := addMonthsMs loan.startDate final.month }
          else p)
      final.projections
  { projections := projections
    totalMonths := projections.foldr (fun p m => max p.monthsToPayoff m) 0
    totalInterest := roundCents final.totalInterestPaid }

/-! ## Projection aggregator -/

/-- One step of the `extraPaymentAllocations` construction of
`calculateStrategyProjections`: the `allocations[loan.id] ||
Number(loan.minimumPayment)` read falls back on `undefined` or `0` (both
falsy, and both `0` in the function-model of the allocations object); the
loan id is appended when the extra exceeds the `0.001` noise floor. -/
def extraPaymentEntry (allocations : ℕ → ℚ) (acc : List (ℕ × ℚ))
    (loan : Loan) : List (ℕ × ℚ) :=
  let allocation :=
    if allocations loan.id = 0 then loan.minimumPayment else allocations loan.id
  let extra := allocation - loan.minimumPayment
  if extra > 1/1000 then acc ++ [(loan.id, roundCents extra)] else acc

/-- Source `calculateStrategyProjections(loans, monthlyBudget, strategyType)`. -/
def calculateStrategyProjections (loans : List Loan)
    (monthlyBudget : Option MonthlyBudget)
    (strategyType : Option StrategyType) : StrategyProjection :=
  let activeLoans := loans.filter (·.isActive)
  let monthlyObligation := calculateMonthlyObligation activeLoans
  let monthlyAllocation :=
    match monthlyBudget with
    | some budget => budget.monthlyAllocation
    | none => monthlyObligation
  let minPaymentSimulation := simulateLoanPayoff activeLoans monthlyObligation none
  let strategySimulation :=
    match strategyType with
    | some _ => simulateLoanPayoff activeLoans monthlyAllocation strategyType
    | none => minPaymentSimulation
  let allocations := distributeBudgetAcrossLoans activeLoans monthlyAllocation strategyType
  let extraPaymentAllocations := activeLoans.foldl (extraPaymentEntry allocations) []
  { loans := strategySimulation.projections
    totalMonths := strategySimulation.totalMonths
    totalInterest := strategySimulation.totalInterest
    interestSavings :=
      minPaymentSimulation.totalInterest - strategySimulation.totalInterest
    timeSavings :=
      (minPaymentSimulation.totalMonths : ℤ) - strategySimulation.totalMonths
    extraPaymentAllocations := extraPaymentAllocations }

/-! ## Lemmas: rounding -/

lemma ratFloor_eq_floor (q : ℚ) : ratFloor q = ⌊q⌋ := by
  rw [Rat.floor_def, ratFloor, Int.fdiv_eq_ediv _ (Int.natCast_nonneg q.den)]

lemma roundCents_mono {a b : ℚ} (h : a ≤ b) : roundCents a ≤ roundCents b := by
  have h1 : jsRound (a * 100) ≤ jsRound (b * 100) := by
    unfold jsRound
    rw [ratFloor_eq_floor, ratFloor_eq_floor]
    exact Int.floor_le_floor (by linarith)
  have h2 : ((jsRound (a * 100) : ℚ)) ≤ ((jsRound (b * 100) : ℚ)) := by
    exact_mod_cast h1
  unfold roundCents
  linarith

/-! ## Lemmas: the payoff-date loop -/

/-- Proof abstraction: the month count the loop reports, with fuel exhaustion
valued at the fuel bound and the never-payoff return at the full remaining
budget (so that at the top-level call with fuel 600 it agrees with
`payoffMonthsCount`). -/
def payoffLoopVal (monthlyRate monthlyPayment bal : ℚ) (fuel : ℕ) : ℕ :=
  (payoffLoopMonths monthlyRate monthlyPayment bal fuel).getD fuel

lemma payoffLoopVal_zero (r p bal : ℚ) : payoffLoopVal r p bal 0 = 0 := by
  simp [payoffLoopVal, payoffLoopMonths]

lemma payoffLoopMonths_succ_never {bal : ℚ} (r p : ℚ) (n : ℕ) (h : bal > 1/100)
    (hnever : p - bal * r ≤ 0) : payoffLoopMonths r p bal (n + 1) = none := by
  simp only [payoffLoopMonths]
  rw [if_pos h, if_pos hnever]

lemma payoffLoopVal_succ_done {bal : ℚ} (r p : ℚ) {n : ℕ} (h : ¬ bal > 1/100) :
    payoffLoopVal r p bal (n + 1) = 0 := by
  unfold payoffLoopVal
  simp only [payoffLoopMonths]
  rw [if_neg h]
  rfl

lemma payoffLoopVal_succ_never {bal : ℚ} (r p : ℚ) {n : ℕ} (h : bal > 1/100)
    (hnever : p - bal * r ≤ 0) : payoffLoopVal r p bal (n + 1) = n + 1 := by
  unfold payoffLoopVal
  simp only [payoffLoopMonths]
  rw [if_pos h, if_pos hnever]
  rfl

lemma payoffLoopVal_succ_pos {bal : ℚ} (r p : ℚ) {n : ℕ} (h : bal > 1/100)
    (hnever : ¬ (p - bal * r ≤ 0)) :
    payoffLoopVal r p bal (n + 1)
      = payoffLoopVal r p (max 0 (bal - (p - bal * r))) n + 1 := by
  unfold payoffLoopVal
  simp only [payoffLoopMonths]
  rw [if_pos h, if_neg hnever]
  cases hm : payoffLoopMonths r p (max 0 (bal - (p - bal * r))) n with
  | none => rfl
  | some m => rfl

lemma payoffLoopVal_le (r p : ℚ) :
    ∀ (fuel : ℕ) (bal : ℚ), payoffLoopVal r p bal fuel ≤ fuel := by
  intro fuel
  induction fuel with
  | zero => intro bal; rw [payoffLoopVal_zero]
  | succ n ih =>
    intro bal
    by_cases h : bal > 1/100
    · by_cases hnever : p - bal * r ≤ 0
      · rw [payoffLoopVal_succ_never r p h hnever]
      · rw [payoffLoopVal_succ_pos r p h hnever]
        exact Nat.succ_le_succ (ih _)
    · rw [payoffLoopVal_succ_done r p h]; exact Nat.zero_le _

lemma payoffLoopVal_mono (r p1 p2 : ℚ) (hp1 : 0 < p1) (hp : p1 ≤ p2) :
    ∀ (fuel : ℕ) (b1 b2 : ℚ), 0 ≤ b2 → b2 ≤ b1 →
      payoffLoopVal r p2 b2 fuel ≤ payoffLoopVal r p1 b1 fuel := by
  intro fuel
  induction fuel with
  | zero => intro b1 b2 _ _; rw [payoffLoopVal_zero, payoffLoopVal_zero]
  | succ n ih =>
    intro b1 b2 hb2 hb
    by_cases h2 : b2 > 1/100
    · have h1 : b1 > 1/100 := lt_of_lt_of_le h2 hb
      have hp2 : 0 < p2 := lt_of_lt_of_le hp1 hp
      by_cases hnever2 : p2 - b2 * r ≤ 0
      · -- the payment does not cover interest for `p2`, hence neither for `p1`
        have hb2pos : 0 < b2 := lt_trans (by norm_num) h2
        have hr : 0 < r := by
          by_contra hr
          push_neg at hr
          have : b2 * r ≤ 0 := mul_nonpos_of_nonneg_of_nonpos (le_of_lt hb2pos) hr
          linarith
        have hnever1 : p1 - b1 * r ≤ 0 := by
          have : b2 * r ≤ b1 * r := mul_le_mul_of_nonneg_right hb (le_of_lt hr)
          linarith
        rw [payoffLoopVal_succ_never r p2 h2 hnever2,
          payoffLoopVal_succ_never r p1 h1 hnever1]
      · by_cases hnever1 : p1 - b1 * r ≤ 0
        · rw [payoffLoopVal_succ_never r p1 h1 hnever1,
            payoffLoopVal_succ_pos r p2 h2 hnever2]
          exact Nat.succ_le_succ (payoffLoopVal_le r p2 n _)
        · rw [payoffLoopVal_succ_pos r p2 h2 hnever2,
            payoffLoopVal_succ_pos r p1 h1 hnever1]
          refine Nat.succ_le_succ (ih _ _ (le_max_left 0 _) ?_)
          by_cases hr1 : 0 ≤ 1 + r
          · refine max_le_max (le_refl 0) ?_
            nlinarith [mul_nonneg (sub_nonneg.mpr hb) hr1]
          · push_neg at hr1
            have hb2pos : 0 < b2 := lt_trans (by norm_num) h2
            have : b2 - (p2 - b2 * r) ≤ 0 := by nlinarith
            rw [max_eq_left this]
            exact le_max_left 0 _
    · rw [payoffLoopVal_succ_done r p2 h2]; exact Nat.zero_le _

lemma payoffMonthsCount_eq_val {balance monthlyPayment : ℚ} (rate : ℚ)
    (hb : 0 < balance) (hp : 0 < monthlyPayment) :
    payoffMonthsCount balance monthlyPayment rate
      = payoffLoopVal (calculateMonthlyRate rate) monthlyPayment balance 600 := by
  unfold payoffMonthsCount payoffLoopVal
  rw [if_neg (by push_neg; exact ⟨hp, hb⟩)]
  cases h : payoffLoopMonths (calculateMonthlyRate rate) monthlyPayment balance 600 with
  | none => rfl
  | some m => rfl

lemma payoffBalanceAt_nonneg (r p b : ℚ) (hb : 0 < b) :
    ∀ k : ℕ, 0 ≤ payoffBalanceAt r p b k := by
  intro k
  induction k with
  | zero => exact le_of_lt hb
  | succ n ih =>
    simp only [payoffBalanceAt]
    split_ifs with h
    · exact le_max_left 0 _
    · exact ih

/-! ## Claims about the amortization primitives (C5, C6, C7) -/

/-- C5 (amended): if the balance is above the loop threshold `0.01`, the
payment is positive and the payment does not cover the first month's accruing
interest, `calculatePayoffDate` returns `startDate` advanced by
`600 * 30 * 24 * 60 * 60 * 1000` milliseconds — the 600-month horizon
approximated as 30-day months — not by 600 calendar months. -/
theorem calculatePayoffDate_never_horizon
    (balance monthlyPayment interestRate : ℚ) (startDate : ℤ)
    (hb : balance > 1/100) (hp : 0 < monthlyPayment)
    (hnever : monthlyPayment ≤ balance * calculateMonthlyRate interestRate) :
    calculatePayoffDate balance monthlyPayment interestRate startDate
      = startDate + 600 * 30 * 24 * 60 * 60 * 1000 := by
  have hloop : payoffLoopMonths (calculateMonthlyRate interestRate)
      monthlyPayment balance 600 = none :=
    payoffLoopMonths_succ_never _ _ 599 hb (by linarith)
  unfold calculatePayoffDate
  rw [if_neg (by push_neg; constructor <;> linarith), hloop]

/-- C5 witness: a concrete never-payoff instance of the amended claim
(balance 1000, payment 10, APR 12%, start at the epoch). -/
theorem calculatePayoffDate_never_horizon_witness :
    (1000 : ℚ) > 1/100 ∧ (0 : ℚ) < 10 ∧
      (10 : ℚ) ≤ 1000 * calculateMonthlyRate 12 ∧
      calculatePayoffDate 1000 10 12 0 = 0 + 600 * 30 * 24 * 60 * 60 * 1000 :=
  ⟨by norm_num, by norm_num, by norm_num [calculateMonthlyRate],
    calculatePayoffDate_never_horizon 1000 10 12 0 (by norm_num) (by norm_num)
      (by norm_num [calculateMonthlyRate])⟩

/-- C5 counterexample: at balance 1000, payment 10, APR 12% (so the payment
exactly equals the first month's interest and the never-payoff branch fires)
and `startDate` = the epoch, the function returns the epoch plus 18000 days
(`1555200000000` ms), which is not the epoch advanced by exactly 600 calendar
months (`addMonthsMs 0 600 = 1577836800000` ms, i.e. 2020-01-01). -/
theorem calculatePayoffDate_never_horizon_counterexample :
    (1000 : ℚ) > 0 ∧ (0 : ℚ) < 10 ∧
      10 - 1000 * calculateMonthlyRate 12 ≤ 0 ∧
      calculatePayoffDate 1000 10 12 0 = 1555200000000 ∧
      addMonthsMs 0 600 = 1577836800000 ∧
      calculatePayoffDate 1000 10 12 0 ≠ addMonthsMs 0 600 := by
  refine ⟨by norm_num, by norm_num, by norm_num [calculateMonthlyRate],
    by decide, by decide, by decide⟩

/-- C6: at balance 1000, monthly payment 10.01, APR 12%, the loop of
`calculateTotalInterest` is still running after 600 iterations — the source
declares `maxMonths = 600` inside `calculateTotalInterest` but its `while`
condition never consults it — and it terminates within 700 iterations
(it stops after 695). -/
theorem calculateTotalInterest_exceeds_600_months :
    totalInterestLoop (calculateMonthlyRate 12) (1001/100) (1000 * 100)
        1000 0 600 = none ∧
      (totalInterestLoop (calculateMonthlyRate 12) (1001/100) (1000 * 100)
        1000 0 700).isSome = true :=
  ⟨by decide, by decide⟩

/-- C7 (amended): for a fixed balance and rate and positive monthly payments
`p1 ≤ p2`, the months-to-payoff implied by `calculatePayoffDate` (horizon- and
never-payoff-capped at 600) at `p2` is at most the one at `p1`.  The
`totalInterest` half of the original claim is false and is dropped (see the
counterexample). -/
theorem payoffMonths_mono_in_payment (balance rate p1 p2 : ℚ)
    (hp1 : 0 < p1) (hp : p1 ≤ p2) :
    payoffMonthsCount balance p2 rate ≤ payoffMonthsCount balance p1 rate := by
  by_cases hb : 0 < balance
  · rw [payoffMonthsCount_eq_val rate hb hp1,
      payoffMonthsCount_eq_val rate hb (lt_of_lt_of_le hp1 hp)]
    exact payoffLoopVal_mono (calculateMonthlyRate rate) p1 p2 hp1 hp 600
      balance balance (le_of_lt hb) (le_refl _)
  · unfold payoffMonthsCount
    rw [if_pos (Or.inr (not_lt.mp hb)), if_pos (Or.inr (not_lt.mp hb))]

/-- C7 witness: balance 100, rate 0, payments 1 ≤ 2; the faster payment pays
off in no more months. -/
theorem payoffMonths_mono_in_payment_witness :
    (0 : ℚ) < 1 ∧ (1 : ℚ) ≤ 2 ∧
      payoffMonthsCount 100 2 0 ≤ payoffMonthsCount 100 1 0 :=
  ⟨by norm_num, by norm_num,
    payoffMonths_mono_in_payment 100 0 1 2 (by norm_num) (by norm_num)⟩

/-- C7 counterexample to the claim as stated: (a) with payments `p1 = 0 ≤ 1 =
p2` (balance 100, rate 0) the implied months-to-payoff increases from 0 to
100, and (b) with positive payments `p1 = 10 ≤ 1000 = p2` (balance 1000, APR
12%) `calculateTotalInterest` increases from 0 (the `principal <= 0` break
returns the interest accumulated so far, none) to 10.1. -/
theorem payoffMonths_mono_in_payment_counterexample :
    ¬ (payoffMonthsCount 100 1 0 ≤ payoffMonthsCount 100 0 0) ∧
      ¬ (calculateTotalInterest 1000 1000 12 ≤ calculateTotalInterest 1000 10 12) :=
  ⟨by decide, by decide⟩

/-! ## Lemmas: id-keyed objects built by iterated update -/

lemma foldl_update_not_mem {α : Type} (key : α → ℕ) (val : α → ℚ) :
    ∀ (xs : List α) (base : ℕ → ℚ) (z : ℕ), z ∉ xs.map key →
      (xs.foldl (fun f a => Function.update f (key a) (val a)) base) z = base z := by
  intro xs
  induction xs with
  | nil => intro base z _; rfl
  | cons y ys ih =>
    intro base z hz
    rw [List.map_cons, List.mem_cons] at hz
    push_neg at hz
    rw [List.foldl_cons, ih _ z hz.2, Function.update_noteq hz.1]

lemma foldl_update_lookup {α : Type} (key : α → ℕ) (val : α → ℚ) :
    ∀ (xs : List α) (base : ℕ → ℚ) (x : α), x ∈ xs → (xs.map key).Nodup →
      (xs.foldl (fun f a => Function.update f (key a) (val a)) base) (key x) = val x := by
  intro xs
  induction xs with
  | nil => intro base x hx; exact absurd hx (List.not_mem_nil x)
  | cons y ys ih =>
    intro base x hx hnd
    rw [List.map_cons, List.nodup_cons] at hnd
    rw [List.foldl_cons]
    rcases List.mem_cons.mp hx with rfl | hx'
    · rw [foldl_update_not_mem key val ys _ (key x) hnd.1, Function.update_same]
    · exact ih _ x hx' hnd.2

lemma minimumAllocations_lookup {activeLoans : List Loan}
    (hnd : (activeLoans.map (·.id)).Nodup) {l : Loan} (hl : l ∈ activeLoans) :
    minimumAllocations activeLoans l.id = l.minimumPayment := by
  unfold minimumAllocations
  exact foldl_update_lookup (fun l : Loan => l.id)
    (fun l : Loan => l.minimumPayment) activeLoans _ l hl hnd

lemma minimumPaymentsObject_lookup {workingLoans : List WLoan}
    (hnd : (workingLoans.map (·.id)).Nodup) {l : WLoan} (hl : l ∈ workingLoans) :
    minimumPaymentsObject workingLoans l.id = l.minimumPayment := by
  unfold minimumPaymentsObject
  exact foldl_update_lookup (fun l : WLoan => l.id)
    (fun l : WLoan => l.minimumPayment) workingLoans _ l hl hnd

lemma buildRateCache_lookup {workingLoans : List WLoan}
    (hnd : (workingLoans.map (·.id)).Nodup) {l : WLoan} (hl : l ∈ workingLoans) :
    buildRateCache workingLoans l.id = calculateMonthlyRate l.interestRate := by
  unfold buildRateCache
  exact foldl_update_lookup (fun l : WLoan => l.id)
    (fun l : WLoan => calculateMonthlyRate l.interestRate) workingLoans _ l hl hnd

/-! ## Lemmas: the single-month allocator -/

lemma distributeExtraAux_mono (fuel : ℕ) :
    ∀ (rest : List Loan) (extra : ℚ) (allocs : ℕ → ℚ) (x : ℕ),
      allocs x ≤ distributeExtraAux fuel rest extra allocs x := by
  induction fuel with
  | zero => intro rest extra allocs x; exact le_refl _
  | succ n ih =>
    intro rest extra allocs x
    cases rest with
    | nil => exact le_refl _
    | cons loan rest' =>
      simp only [distributeExtraAux]
      split_ifs with hextra hcap hadv hbrk hadv' hbrk'
      all_goals try exact le_refl _
      · -- capacity > 0.01, advance
        refine le_trans ?_ (ih rest' _ _ x)
        rw [Function.update_apply]
        split_ifs with hx
        · subst hx
          have : (0:ℚ) ≤ min extra (loan.currentBalance -
              max 0 (allocs loan.id - loan.currentBalance *
                calculateMonthlyRate loan.interestRate)) :=
            le_min (by linarith) (by linarith)
          linarith
        · exact le_refl _
      · -- capacity > 0.01, break
        rw [Function.update_apply]
        split_ifs with hx
        · subst hx
          have : (0:ℚ) ≤ min extra (loan.currentBalance -
              max 0 (allocs loan.id - loan.currentBalance *
                calculateMonthlyRate loan.interestRate)) :=
            le_min (by linarith) (by linarith)
          linarith
        · exact le_refl _
      · -- capacity > 0.01, stay
        refine le_trans ?_ (ih (loan :: rest') _ _ x)
        rw [Function.update_apply]
        split_ifs with hx
        · subst hx
          have : (0:ℚ) ≤ min extra (loan.currentBalance -
              max 0 (allocs loan.id - loan.currentBalance *
                calculateMonthlyRate loan.interestRate)) :=
            le_min (by linarith) (by linarith)
          linarith
        · exact le_refl _
      · -- capacity ≤ 0.01, advance (additional = 0)
        refine le_trans ?_ (ih rest' _ _ x)
        rw [Function.update_apply]
        split_ifs with hx
        · subst hx; linarith
        · exact le_refl _
      · -- capacity ≤ 0.01, break
        rw [Function.update_apply]
        split_ifs with hx
        · subst hx; linarith
        · exact le_refl _
      · -- capacity ≤ 0.01, stay
        refine le_trans ?_ (ih (loan :: rest') _ _ x)
        rw [Function.update_apply]
        split_ifs with hx
        · subst hx; linarith
        · exact le_refl _

lemma distributeBudgetAcrossLoans_ge_min (loans : List Loan)
    (monthlyAllocation : ℚ) (strategyType : Option StrategyType)
    (hnd : ((loans.filter (·.isActive)).map (·.id)).Nodup)
    {l : Loan} (hl : l ∈ loans.filter (·.isActive)) :
    l.minimumPayment ≤ distributeBudgetAcrossLoans loans monthlyAllocation strategyType l.id := by
  cases strategyType with
  | none =>
    simp only [distributeBudgetAcrossLoans]
    rw [minimumAllocations_lookup hnd hl]
  | some st =>
    simp only [distributeBudgetAcrossLoans]
    split_ifs with h
    · rw [minimumAllocations_lookup hnd hl]
    · calc l.minimumPayment
          = minimumAllocations (loans.filter (·.isActive)) l.id :=
            (minimumAllocations_lookup hnd hl).symm
        _ ≤ _ := distributeExtraAux_mono _ _ _ _ _

/-! ## The waterfall property of the allocator (C4) -/

/-- A loan has, under the final allocation `F`, either absorbed its full
remaining principal capacity (within the `0.01` tolerance) or been paid off:
the two advance conditions of the distribution loop, read off the final
allocation. -/
def capacityExhausted (F : ℕ → ℚ) (l : Loan) : Prop :=
  l.currentBalance -
      max 0 (F l.id - l.currentBalance * calculateMonthlyRate l.interestRate)
    ≤ 1/100 ∨
  max 0 (F l.id - l.currentBalance * calculateMonthlyRate l.interestRate)
    ≥ l.currentBalance - 1/100

lemma distributeExtraAux_untouched (fuel : ℕ) :
    ∀ (rest : List Loan) (extra : ℚ) (allocs : ℕ → ℚ) (x : ℕ),
      (∀ l ∈ rest, l.id ≠ x) →
      distributeExtraAux fuel rest extra allocs x = allocs x := by
  induction fuel with
  | zero => intro rest extra allocs x _; rfl
  | succ n ih =>
    intro rest extra allocs x hx
    cases rest with
    | nil => rfl
    | cons loan rest' =>
      have hhead : loan.id ≠ x := hx loan (List.mem_cons_self loan rest')
      have htail : ∀ l ∈ rest', l.id ≠ x := fun l hl => hx l (List.mem_cons_of_mem _ hl)
      simp only [distributeExtraAux]
      split_ifs with hextra hcap hadv hbrk hadv' hbrk'
      all_goals try rfl
      · rw [ih rest' _ _ x htail, Function.update_noteq (Ne.symm hhead)]
      · rw [Function.update_noteq (Ne.symm hhead)]
      · rw [ih (loan :: rest') _ _ x hx, Function.update_noteq (Ne.symm hhead)]
      · rw [ih rest' _ _ x htail, Function.update_noteq (Ne.symm hhead)]
      · rw [Function.update_noteq (Ne.symm hhead)]
      · rw [ih (loan :: rest') _ _ x hx, Function.update_noteq (Ne.symm hhead)]

lemma sublist_pair_cons {li lj loan : Loan} {rest' : List Loan}
    (h : List.Sublist [li, lj] (loan :: rest')) :
    (li = loan ∧ List.Sublist [lj] rest') ∨ List.Sublist [li, lj] rest' := by
  cases h with
  | cons _ h2 => exact Or.inr h2
  | cons₂ _ h2 => exact Or.inl ⟨rfl, h2⟩

lemma distributeExtraAux_waterfall (fuel : ℕ) :
    ∀ (rest : List Loan) (extra : ℚ) (allocs : ℕ → ℚ),
      (rest.map (·.id)).Nodup →
      ∀ lj ∈ rest, distributeExtraAux fuel rest extra allocs lj.id > allocs lj.id →
      ∀ li, List.Sublist [li, lj] rest →
      capacityExhausted (distributeExtraAux fuel rest extra allocs) li := by
  induction fuel with
  | zero =>
    intro rest extra allocs _ lj _ hgt li _
    simp only [distributeExtraAux] at hgt
    exact absurd hgt (lt_irrefl _)
  | succ n ih =>
    intro rest extra allocs hnd lj hljmem hgt li hsub
    cases rest with
    | nil => exact absurd hljmem (List.not_mem_nil lj)
    | cons loan rest' =>
      have hnd2 := hnd
      rw [List.map_cons, List.nodup_cons] at hnd2
      -- whenever lj is keyed like the head loan, the distinctness of ids
      -- forces lj to be the head itself, and then no li precedes it
      have hhead : lj.id = loan.id → False ∨ lj = loan := by
        intro he
        rcases List.mem_cons.mp hljmem with rfl | h'
        · exact Or.inr rfl
        · exact absurd (he ▸ List.mem_map_of_mem (·.id) h') hnd2.1
      by_cases hextra : extra > 1/100
      · simp only [distributeExtraAux] at hgt ⊢
        rw [if_pos hextra] at hgt ⊢
        split_ifs at hgt ⊢ with hcap hadv hbrk hadv hbrk
        -- case: capacity > 0.01, advance
        · rcases sublist_pair_cons hsub with ⟨rfl, h2⟩ | h2
          · unfold capacityExhausted
            rw [distributeExtraAux_untouched n rest' _ _ li.id
              (fun l hl he => hnd2.1 (he ▸ List.mem_map_of_mem (·.id) hl)),
              Function.update_same]
            rw [Function.update_same] at hadv
            rcases hadv with hpaid | hcant
            · right; exact hpaid
            · exact absurd hcap (not_lt.mpr hcant)
          · have hlj' : lj ∈ rest' := h2.subset (by simp)
            have hne : lj.id ≠ loan.id :=
              fun he => hnd2.1 (he ▸ List.mem_map_of_mem (·.id) hlj')
            refine ih rest' _ _ hnd2.2 lj hlj' ?_ li h2
            rw [Function.update_noteq hne]
            exact hgt
        -- case: capacity > 0.01, break
        · by_cases hlje : lj.id = loan.id
          · rcases hhead hlje with h0 | rfl
            · exact absurd h0 not_false
            · rcases sublist_pair_cons hsub with ⟨rfl, h2⟩ | h2
              · exact absurd (List.mem_map_of_mem (·.id) (h2.subset (by simp)))
                  hnd2.1
              · exact absurd (List.mem_map_of_mem (·.id)
                  (h2.subset (show lj ∈ [li, lj] by simp))) hnd2.1
          · rw [Function.update_noteq hlje] at hgt
            exact absurd hgt (lt_irrefl _)
        -- case: capacity > 0.01, stay
        · by_cases hlje : lj.id = loan.id
          · rcases hhead hlje with h0 | rfl
            · exact absurd h0 not_false
            · rcases sublist_pair_cons hsub with ⟨rfl, h2⟩ | h2
              · exact absurd (List.mem_map_of_mem (·.id) (h2.subset (by simp)))
                  hnd2.1
              · exact absurd (List.mem_map_of_mem (·.id)
                  (h2.subset (show lj ∈ [li, lj] by simp))) hnd2.1
          · refine ih (loan :: rest') _ _ hnd lj hljmem ?_ li hsub
            rw [Function.update_noteq hlje]
            exact hgt
        -- case: capacity ≤ 0.01, advance
        · rcases sublist_pair_cons hsub with ⟨rfl, h2⟩ | h2
          · unfold capacityExhausted
            rw [distributeExtraAux_untouched n rest' _ _ li.id
              (fun l hl he => hnd2.1 (he ▸ List.mem_map_of_mem (·.id) hl)),
              Function.update_same]
            left
            rw [add_zero]
            exact not_lt.mp hcap
          · have hlj' : lj ∈ rest' := h2.subset (by simp)
            have hne : lj.id ≠ loan.id :=
              fun he => hnd2.1 (he ▸ List.mem_map_of_mem (·.id) hlj')
            refine ih rest' _ _ hnd2.2 lj hlj' ?_ li h2
            rw [Function.update_noteq hne]
            exact hgt
        -- case: capacity ≤ 0.01, break
        · by_cases hlje : lj.id = loan.id
          · rcases hhead hlje with h0 | rfl
            · exact absurd h0 not_false
            · rcases sublist_pair_cons hsub with ⟨rfl, h2⟩ | h2
              · exact absurd (List.mem_map_of_mem (·.id) (h2.subset (by simp)))
                  hnd2.1
              · exact absurd (List.mem_map_of_mem (·.id)
                  (h2.subset (show lj ∈ [li, lj] by simp))) hnd2.1
          · rw [Function.update_noteq hlje] at hgt
            exact absurd hgt (lt_irrefl _)
        -- case: capacity ≤ 0.01, stay
        · by_cases hlje : lj.id = loan.id
          · rcases hhead hlje with h0 | rfl
            · exact absurd h0 not_false
            · rcases sublist_pair_cons hsub with ⟨rfl, h2⟩ | h2
              · exact absurd (List.mem_map_of_mem (·.id) (h2.subset (by simp)))
                  hnd2.1
              · exact absurd (List.mem_map_of_mem (·.id)
                  (h2.subset (show lj ∈ [li, lj] by simp))) hnd2.1
          · refine ih (loan :: rest') _ _ hnd lj hljmem ?_ li hsub
            rw [Function.update_noteq hlje]
            exact hgt
      · simp only [distributeExtraAux] at hgt
        rw [if_neg hextra] at hgt
        exact absurd hgt (lt_irrefl _)

/-- C4: waterfall allocation order.  For every budget and strategy, whenever a
loan `lj` of the strategy-sorted active list receives extra funds above its
minimum from `distributeBudgetAcrossLoans`, every loan `li` occurring earlier
in strategy order has, under the final allocation, already absorbed its full
remaining principal capacity (within the `0.01` tolerance) or been paid off.
The loan ids are assumed distinct, as the data model requires. -/
theorem distributeBudgetAcrossLoans_waterfall (loans : List Loan)
    (monthlyAllocation : ℚ) (strategy : StrategyType)
    (hnd : ((loans.filter (·.isActive)).map (·.id)).Nodup)
    (li lj : Loan)
    (hsub : List.Sublist [li, lj] (sortLoansByStrategy strategy (loans.filter (·.isActive))))
    (hgt : distributeBudgetAcrossLoans loans monthlyAllocation (some strategy) lj.id
      > lj.minimumPayment) :
    capacityExhausted
      (distributeBudgetAcrossLoans loans monthlyAllocation (some strategy)) li := by
  have hperm : (sortLoansByStrategy strategy (loans.filter (·.isActive))).Perm
      (loans.filter (·.isActive)) := by
    unfold sortLoansByStrategy
    cases strategy <;> exact List.perm_insertionSort _ _
  have hndsorted :
      ((sortLoansByStrategy strategy (loans.filter (·.isActive))).map (·.id)).Nodup :=
    ((hperm.map (·.id)).nodup_iff).mpr hnd
  have hljmem : lj ∈ sortLoansByStrategy strategy (loans.filter (·.isActive)) :=
    hsub.subset (by simp)
  have hljactive : lj ∈ loans.filter (·.isActive) := hperm.mem_iff.mp hljmem
  simp only [distributeBudgetAcrossLoans] at hgt ⊢
  split_ifs at hgt ⊢ with hneg
  · rw [minimumAllocations_lookup hnd hljactive] at hgt
    exact absurd hgt (lt_irrefl _)
  · refine distributeExtraAux_waterfall _ _ _ _ hndsorted lj hljmem ?_ li hsub
    rw [minimumAllocations_lookup hnd hljactive]
    exact hgt

/-- Example loans for concrete witnesses: a large 12%-APR loan and a smaller
24%-APR loan (the avalanche order puts `wfLoanB` first). -/
def wfLoanA : Loan := ⟨1, 1000, 50, 12, 0, none, true⟩

/-- Second example loan (see `wfLoanA`). -/
def wfLoanB : Loan := ⟨2, 500, 50, 24, 0, none, true⟩

/-- C4 witness: with budget 1000 under avalanche, `wfLoanB` is first in
strategy order and saturates (absorbs its full capacity), and `wfLoanA`
(second) receives extra; the theorem then yields that `wfLoanB` has exhausted
its capacity. -/
theorem distributeBudgetAcrossLoans_waterfall_witness :
    ((([wfLoanA, wfLoanB].filter (·.isActive)).map (·.id)).Nodup) ∧
      distributeBudgetAcrossLoans [wfLoanA, wfLoanB] 1000 (some .avalanche)
        wfLoanA.id > wfLoanA.minimumPayment ∧
      capacityExhausted
        (distributeBudgetAcrossLoans [wfLoanA, wfLoanB] 1000 (some .avalanche))
        wfLoanB := by
  have hs : sortLoansByStrategy .avalanche ([wfLoanA, wfLoanB].filter (·.isActive))
      = [wfLoanB, wfLoanA] := by decide
  have hsub : List.Sublist [wfLoanB, wfLoanA]
      (sortLoansByStrategy .avalanche ([wfLoanA, wfLoanB].filter (·.isActive))) := by
    rw [hs]
  exact ⟨by decide, by decide,
    distributeBudgetAcrossLoans_waterfall [wfLoanA, wfLoanB] 1000 .avalanche
      (by decide) wfLoanB wfLoanA hsub (by decide)⟩

/-! ## Lemmas: the simulator's per-month payment distribution -/

lemma distributeExtraSim_mono (cache : ℕ → ℚ) :
    ∀ (sorted : List WLoan) (pays : ℕ → ℚ) (funds : ℚ) (x : ℕ),
      pays x ≤ (distributeExtraSim cache sorted pays funds).1 x := by
  intro sorted
  induction sorted with
  | nil => intro pays funds x; exact le_refl _
  | cons loan rest ih =>
    intro pays funds x
    simp only [distributeExtraSim]
    split_ifs with hbrk hcap
    · exact le_refl _
    · refine le_trans ?_ (ih _ _ x)
      rw [Function.update_apply]
      split_ifs with hx
      · subst hx
        have : (0:ℚ) ≤ min funds (loan.currentBalance -
            max 0 (pays loan.id - loan.currentBalance * cache loan.id)) :=
          le_min (by linarith) (by linarith)
        linarith
      · exact le_refl _
    · exact ih _ _ x

lemma sum_map_update (pays : ℕ → ℚ) (x : ℕ) (v : ℚ) :
    ∀ (ws : List WLoan), (ws.map (·.id)).Nodup → x ∈ ws.map (·.id) →
      (ws.map (fun l => Function.update pays x v l.id)).sum
        = (ws.map (fun l => pays l.id)).sum + v - pays x := by
  intro ws
  induction ws with
  | nil => intro _ hx; exact absurd hx (List.not_mem_nil x)
  | cons w rest ih =>
    intro hnd hx
    rw [List.map_cons, List.nodup_cons] at hnd
    rw [List.map_cons, List.map_cons, List.sum_cons, List.sum_cons]
    rcases List.mem_cons.mp (by rw [List.map_cons] at hx; exact hx) with he | htail
    · -- x is the head's id; no tail element shares it
      have htl : (rest.map (fun l => Function.update pays x v l.id))
          = rest.map (fun l => pays l.id) := by
        refine List.map_congr_left (fun l hl => ?_)
        refine Function.update_noteq (fun h => ?_) _ _
        rw [← he] at hnd
        exact hnd.1 (h ▸ List.mem_map_of_mem (·.id) hl)
      rw [htl, ← he, Function.update_same]
      ring
    · have hne : w.id ≠ x := by
        intro h
        exact hnd.1 (h ▸ htail)
      rw [Function.update_noteq hne, ih hnd.2 htail]
      ring

lemma distributeExtraSim_conserve (cache : ℕ → ℚ) (ws : List WLoan)
    (hnd : (ws.map (·.id)).Nodup) :
    ∀ (sorted : List WLoan) (pays : ℕ → ℚ) (funds : ℚ),
      (∀ l ∈ sorted, l ∈ ws) → 0 ≤ funds →
      (ws.map (fun l => (distributeExtraSim cache sorted pays funds).1 l.id)).sum
          + (distributeExtraSim cache sorted pays funds).2
        = (ws.map (fun l => pays l.id)).sum + funds ∧
      0 ≤ (distributeExtraSim cache sorted pays funds).2 := by
  intro sorted
  induction sorted with
  | nil => intro pays funds _ hf; exact ⟨rfl, hf⟩
  | cons loan rest ih =>
    intro pays funds hmem hf
    have hloan : loan ∈ ws := hmem loan (List.mem_cons_self loan rest)
    have hrest : ∀ l ∈ rest, l ∈ ws := fun l hl => hmem l (List.mem_cons_of_mem _ hl)
    simp only [distributeExtraSim]
    split_ifs with hbrk hcap
    · exact ⟨rfl, hf⟩
    · push_neg at hbrk
      set cap := loan.currentBalance -
        max 0 (pays loan.id - loan.currentBalance * cache loan.id) with hcapdef
      have hadd0 : (0:ℚ) ≤ min funds cap := le_min (by linarith) (by linarith)
      have haddf : min funds cap ≤ funds := min_le_left _ _
      obtain ⟨hsum, hnn⟩ := ih
        (Function.update pays loan.id (pays loan.id + min funds cap))
        (funds - min funds cap) hrest (by linarith)
      refine ⟨?_, hnn⟩
      rw [hsum, sum_map_update pays loan.id _ ws hnd
        (List.mem_map_of_mem (·.id) hloan)]
      ring
    · exact ih pays funds hrest hf

lemma sortWorkingByStrategy_perm (strategy : StrategyType) (ws : List WLoan) :
    (sortWorkingByStrategy strategy ws).Perm ws := by
  unfold sortWorkingByStrategy
  cases strategy <;> exact List.perm_insertionSort _ _

lemma monthPayments_ge_min (strategyType : Option StrategyType)
    (monthlyAllocation : ℚ) (cache : ℕ → ℚ) {workingLoans : List WLoan}
    (hnd : (workingLoans.map (·.id)).Nodup) {l : WLoan} (hl : l ∈ workingLoans) :
    l.minimumPayment
      ≤ monthPayments strategyType monthlyAllocation cache workingLoans l.id := by
  have hbase : minimumPaymentsObject workingLoans l.id = l.minimumPayment :=
    minimumPaymentsObject_lookup hnd hl
  cases strategyType with
  | none => simp only [monthPayments]; rw [hbase]
  | some st =>
    simp only [monthPayments]
    split_ifs with h
    · calc l.minimumPayment = minimumPaymentsObject workingLoans l.id := hbase.symm
        _ ≤ _ := distributeExtraSim_mono cache _ _ _ _
    · rw [hbase]

lemma monthPayments_sum_le (strategyType : Option StrategyType)
    (monthlyAllocation : ℚ) (cache : ℕ → ℚ) {workingLoans : List WLoan}
    (hnd : (workingLoans.map (·.id)).Nodup)
    (hbudget : (workingLoans.map (·.minimumPayment)).sum ≤ monthlyAllocation) :
    (workingLoans.map
        (fun l => monthPayments strategyType monthlyAllocation cache workingLoans l.id)).sum
      ≤ monthlyAllocation := by
  have hbase : (workingLoans.map
      (fun l => minimumPaymentsObject workingLoans l.id)).sum
      = (workingLoans.map (·.minimumPayment)).sum := by
    refine congrArg List.sum (List.map_congr_left (fun l hl => ?_))
    exact minimumPaymentsObject_lookup hnd hl
  cases strategyType with
  | none => simp only [monthPayments]; rw [hbase]; exact hbudget
  | some st =>
    simp only [monthPayments]
    split_ifs with h
    · obtain ⟨hsum, hnn⟩ := distributeExtraSim_conserve cache workingLoans hnd
        (sortWorkingByStrategy st workingLoans)
        (minimumPaymentsObject workingLoans)
        (monthlyAllocation - (workingLoans.map (·.minimumPayment)).sum)
        (fun l hl => (sortWorkingByStrategy_perm st workingLoans).mem_iff.mp hl)
        (by linarith)
      rw [hbase] at hsum
      linarith
    · rw [hbase]; exact hbudget

/-! ## Lemmas: the monthly state transition -/

/-- The per-loan balance update of a simulated month: interest accrues, the
principal is the payment minus interest clamped to `[0, balance]`, and the new
balance is the old minus the principal (floored at 0). -/
def monthBalanceUpdate (cache payments : ℕ → ℚ) (loan : WLoan) : WLoan :=
  { loan with
    currentBalance := max 0 (loan.currentBalance -
      min loan.currentBalance
        (max 0 (payments loan.id - loan.currentBalance * cache loan.id))) }

lemma applyMonth_fst (cache payments : ℕ → ℚ) (month : ℕ) :
    ∀ (ws : List WLoan) (projs : List PaymentProjection) (ti : ℚ) (po : List ℕ),
      (applyMonth cache payments month ws projs ti po).1
        = ws.map (monthBalanceUpdate cache payments) := by
  intro ws
  induction ws with
  | nil => intro projs ti po; rfl
  | cons loan rest ih =>
    intro projs ti po
    simp only [applyMonth, List.map_cons]
    rw [ih]
    rfl

lemma applyMonth_interest (cache payments : ℕ → ℚ) (month : ℕ) :
    ∀ (ws : List WLoan) (projs : List PaymentProjection) (ti : ℚ) (po : List ℕ),
      (applyMonth cache payments month ws projs ti po).2.2.1
        = ti + (ws.map (fun l => l.currentBalance * cache l.id)).sum := by
  intro ws
  induction ws with
  | nil => intro projs ti po; simp [applyMonth]
  | cons loan rest ih =>
    intro projs ti po
    simp only [applyMonth, List.map_cons, List.sum_cons]
    rw [ih]
    ring

/-- The identity of a working loan that survives across months: its id and
minimum payment (balances change, these do not). -/
def loanKey (l : WLoan) : ℕ × ℚ := (l.id, l.minimumPayment)

lemma simStateAt_succ (loans : List Loan) (monthlyAllocation : ℚ)
    (strategyType : Option StrategyType) (k : ℕ) :
    simStateAt loans monthlyAllocation strategyType (k + 1)
      = simStep monthlyAllocation strategyType
          (buildRateCache (loans.map toWorking))
          (simStateAt loans monthlyAllocation strategyType k) := by
  unfold simStateAt
  exact Function.iterate_succ_apply' _ _ _

lemma simStateAt_key_sublist (loans : List Loan) (monthlyAllocation : ℚ)
    (strategyType : Option StrategyType) :
    ∀ k, List.Sublist
      ((simStateAt loans monthlyAllocation strategyType k).workingLoans.map loanKey)
      ((loans.map toWorking).map loanKey) := by
  intro k
  induction k with
  | zero => exact List.Sublist.refl _
  | succ n ih =>
    rw [simStateAt_succ]
    unfold simStep
    split_ifs with hdone
    · exact ih
    · refine List.Sublist.trans ?_ ih
      simp only
      rw [applyMonth_fst]
      refine List.Sublist.trans
        (List.Sublist.map loanKey (List.filter_sublist _)) ?_
      rw [List.map_map]
      have : ((simStateAt loans monthlyAllocation strategyType n).workingLoans.map
          (loanKey ∘ monthBalanceUpdate (buildRateCache (loans.map toWorking))
            (monthPayments strategyType monthlyAllocation
              (buildRateCache (loans.map toWorking))
              (simStateAt loans monthlyAllocation strategyType n).workingLoans)))
          = (simStateAt loans monthlyAllocation strategyType n).workingLoans.map
              loanKey :=
        List.map_congr_left (fun l _ => rfl)
      rw [this]

lemma toWorking_ids (loans : List Loan) :
    (loans.map toWorking).map (·.id) = loans.map (·.id) := by
  rw [List.map_map]
  exact List.map_congr_left (fun l _ => rfl)

lemma simStateAt_ids_nodup (loans : List Loan) (monthlyAllocation : ℚ)
    (strategyType : Option StrategyType) (hnd : (loans.map (·.id)).Nodup) (k : ℕ) :
    (((simStateAt loans monthlyAllocation strategyType k).workingLoans).map (·.id)).Nodup := by
  have h1 := List.Sublist.map Prod.fst
    (simStateAt_key_sublist loans monthlyAllocation strategyType k)
  rw [List.map_map, List.map_map] at h1
  have e1 : ((simStateAt loans monthlyAllocation strategyType k).workingLoans.map
      (Prod.fst ∘ loanKey))
      = (simStateAt loans monthlyAllocation strategyType k).workingLoans.map (·.id) :=
    List.map_congr_left (fun l _ => rfl)
  have e2 : ((loans.map toWorking).map (Prod.fst ∘ loanKey))
      = loans.map (·.id) := by
    rw [← toWorking_ids]
    exact List.map_congr_left (fun l _ => rfl)
  rw [e1, e2] at h1
  exact h1.nodup hnd

lemma simStateAt_minsum_le (loans : List Loan) (monthlyAllocation : ℚ)
    (strategyType : Option StrategyType)
    (hmins : ∀ l ∈ loans, 0 ≤ l.minimumPayment) (k : ℕ) :
    (((simStateAt loans monthlyAllocation strategyType k).workingLoans).map
        (·.minimumPayment)).sum
      ≤ (loans.map (·.minimumPayment)).sum := by
  have h1 := List.Sublist.map Prod.snd
    (simStateAt_key_sublist loans monthlyAllocation strategyType k)
  rw [List.map_map, List.map_map] at h1
  have e1 : ((simStateAt loans monthlyAllocation strategyType k).workingLoans.map
      (Prod.snd ∘ loanKey))
      = (simStateAt loans monthlyAllocation strategyType k).workingLoans.map
          (·.minimumPayment) :=
    List.map_congr_left (fun l _ => rfl)
  have e2 : ((loans.map toWorking).map (Prod.snd ∘ loanKey))
      = loans.map (·.minimumPayment) := by
    rw [show (Prod.snd ∘ loanKey) = (fun l : WLoan => l.minimumPayment) from rfl,
      List.map_map]
    exact List.map_congr_left (fun l _ => rfl)
  rw [e1, e2] at h1
  refine h1.sum_le_sum ?_
  intro a ha
  obtain ⟨l, hl, rfl⟩ := List.mem_map.mp ha
  exact hmins l hl

/-! ## Budget conservation (C1) -/

/-- The sum, over the loans still in the working set at the start of simulated
month `k`, of the payments `simulateLoanPayoff` computes for that month. -/
def simMonthPaymentsSum (loans : List Loan) (monthlyAllocation : ℚ)
    (strategyType : Option StrategyType) (k : ℕ) : ℚ :=
  ((simStateAt loans monthlyAllocation strategyType k).workingLoans.map
    (fun l => monthPayments strategyType monthlyAllocation
      (buildRateCache (loans.map toWorking))
      (simStateAt loans monthlyAllocation strategyType k).workingLoans l.id)).sum

/-- C1 (amended): provided the monthly budget covers the sum of the loans'
minimum payments (and ids are distinct and minimum payments nonnegative, as
the data model requires), the per-loan payments of every simulated month of
`simulateLoanPayoff` sum to at most the budget plus the `0.01` tolerance (in
exact arithmetic they in fact never exceed the budget). -/
theorem simulateLoanPayoff_budget_conservation (loans : List Loan)
    (monthlyAllocation : ℚ) (strategyType : Option StrategyType)
    (hnd : (loans.map (·.id)).Nodup)
    (hmins : ∀ l ∈ loans, 0 ≤ l.minimumPayment)
    (hbudget : (loans.map (·.minimumPayment)).sum ≤ monthlyAllocation) :
    ∀ k, simMonthPaymentsSum loans monthlyAllocation strategyType k
      ≤ monthlyAllocation + 1/100 := by
  intro k
  have h1 := monthPayments_sum_le strategyType monthlyAllocation
    (buildRateCache (loans.map toWorking))
    (simStateAt_ids_nodup loans monthlyAllocation strategyType hnd k)
    (le_trans (simStateAt_minsum_le loans monthlyAllocation strategyType hmins k)
      hbudget)
  unfold simMonthPaymentsSum
  linarith

/-- C1 witness: one loan (balance 20, minimum 10), budget 10, month 0. -/
theorem simulateLoanPayoff_budget_conservation_witness :
    (([(⟨1, 20, 10, 0, 0, none, true⟩ : Loan)].map (·.id)).Nodup) ∧
      (∀ l ∈ [(⟨1, 20, 10, 0, 0, none, true⟩ : Loan)], 0 ≤ l.minimumPayment) ∧
      (([(⟨1, 20, 10, 0, 0, none, true⟩ : Loan)].map (·.minimumPayment)).sum ≤ 10) ∧
      simMonthPaymentsSum [⟨1, 20, 10, 0, 0, none, true⟩] 10 none 0 ≤ 10 + 1/100 :=
  ⟨by decide, by decide, by decide,
    simulateLoanPayoff_budget_conservation [⟨1, 20, 10, 0, 0, none, true⟩] 10
      none (by decide) (by decide) (by decide) 0⟩

/-- C1 counterexample to the claim as stated: with one active loan of minimum
payment 100 and a monthly budget of 0, the simulator still pays the minimum in
the first simulated month, so the month's payments sum to 100 > 0 + 0.01. -/
theorem simulateLoanPayoff_budget_conservation_counterexample :
    simMonthPaymentsSum [⟨1, 1000, 100, 0, 0, none, true⟩] 0 none 0 = 100 ∧
      ¬ (simMonthPaymentsSum [⟨1, 1000, 100, 0, 0, none, true⟩] 0 none 0
        ≤ 0 + 1/100) :=
  ⟨by decide, by decide⟩

/-! ## Minimum-payment floor (C2) -/

/-- C2: with distinct loan ids (as the data model requires), (a) the
single-month allocator `distributeBudgetAcrossLoans` allocates every active
loan at least its minimum payment, for every budget and strategy, and (b) in
every simulated month of `simulateLoanPayoff` every not-yet-retired loan's
computed payment is at least its minimum payment. -/
theorem minimum_payment_floor :
    (∀ (loans : List Loan) (monthlyAllocation : ℚ)
        (strategyType : Option StrategyType),
      ((loans.filter (·.isActive)).map (·.id)).Nodup →
      ∀ l ∈ loans.filter (·.isActive),
        l.minimumPayment
          ≤ distributeBudgetAcrossLoans loans monthlyAllocation strategyType l.id) ∧
    (∀ (loans : List Loan) (monthlyAllocation : ℚ)
        (strategyType : Option StrategyType) (k : ℕ),
      (loans.map (·.id)).Nodup →
      ∀ l ∈ (simStateAt loans monthlyAllocation strategyType k).workingLoans,
        l.minimumPayment
          ≤ monthPayments strategyType monthlyAllocation
              (buildRateCache (loans.map toWorking))
              (simStateAt loans monthlyAllocation strategyType k).workingLoans
              l.id) :=
  ⟨fun loans alloc strat hnd _l hl =>
      distributeBudgetAcrossLoans_ge_min loans alloc strat hnd hl,
    fun loans alloc strat k hnd _l hl =>
      monthPayments_ge_min strat alloc _
        (simStateAt_ids_nodup loans alloc strat hnd k) hl⟩

/-- C2 witness: the two example loans under avalanche with budget 1000, in the
allocator and in month 0 of the simulator. -/
theorem minimum_payment_floor_witness :
    ((([wfLoanA, wfLoanB].filter (·.isActive)).map (·.id)).Nodup) ∧
      wfLoanA.minimumPayment
        ≤ distributeBudgetAcrossLoans [wfLoanA, wfLoanB] 1000 (some .avalanche)
            wfLoanA.id ∧
      (toWorking wfLoanA).minimumPayment
        ≤ monthPayments (some .avalanche) 1000
            (buildRateCache ([wfLoanA, wfLoanB].map toWorking))
            (simStateAt [wfLoanA, wfLoanB] 1000 (some .avalanche) 0).workingLoans
            (toWorking wfLoanA).id :=
  ⟨by decide,
    minimum_payment_floor.1 [wfLoanA, wfLoanB] 1000 (some .avalanche) (by decide)
      wfLoanA (by decide),
    minimum_payment_floor.2 [wfLoanA, wfLoanB] 1000 (some .avalanche) 0
      (by decide) (toWorking wfLoanA) (by decide)⟩

/-! ## Non-negative balances (C3) -/

lemma simStep_done_or_nonneg (monthlyAllocation : ℚ)
    (strategyType : Option StrategyType) (cache : ℕ → ℚ) (s : SimState) :
    ((s.workingLoans = [] ∨ 600 ≤ s.month) ∧
        simStep monthlyAllocation strategyType cache s = s) ∨
      (∀ l ∈ (simStep monthlyAllocation strategyType cache s).workingLoans,
        0 ≤ l.currentBalance) := by
  unfold simStep
  split_ifs with h
  · exact Or.inl ⟨h, rfl⟩
  · right
    intro l hl
    simp only at hl
    have hmem := List.mem_of_mem_filter hl
    rw [applyMonth_fst] at hmem
    obtain ⟨l0, _, rfl⟩ := List.mem_map.mp hmem
    exact le_max_left 0 _

/-- C3: (a) after every monthly update of the rollover simulator, every
working balance is nonnegative (the principal applied is capped at the
remaining balance and the new balance floored at 0), and (b) for a positive
starting balance, the balance tracked by `calculatePayoffDate`'s loop never
goes below 0. -/
theorem balances_never_negative :
    (∀ (loans : List Loan) (monthlyAllocation : ℚ)
        (strategyType : Option StrategyType) (k : ℕ),
      ∀ l ∈ (simStateAt loans monthlyAllocation strategyType (k + 1)).workingLoans,
        0 ≤ l.currentBalance) ∧
    (∀ (monthlyRate monthlyPayment balance : ℚ), 0 < balance →
      ∀ k, 0 ≤ payoffBalanceAt monthlyRate monthlyPayment balance k) := by
  constructor
  · intro loans monthlyAllocation strategyType k
    induction k with
    | zero =>
      intro l hl
      rw [simStateAt_succ] at hl
      rcases simStep_done_or_nonneg monthlyAllocation strategyType _
          (simStateAt loans monthlyAllocation strategyType 0) with ⟨hc, heq⟩ | hpos
      · rcases hc with hws | hmonth
        · rw [heq, hws] at hl
          exact absurd hl (List.not_mem_nil l)
        · have : (simStateAt loans monthlyAllocation strategyType 0).month = 0 := rfl
          omega
      · exact hpos l hl
    | succ n ihn =>
      intro l hl
      rw [simStateAt_succ] at hl
      rcases simStep_done_or_nonneg monthlyAllocation strategyType _
          (simStateAt loans monthlyAllocation strategyType (n + 1)) with ⟨_, heq⟩ | hpos
      · rw [heq] at hl
        exact ihn l hl
      · exact hpos l hl
  · exact payoffBalanceAt_nonneg

/-- C3 witness: the surviving working loan after month 1 of a concrete run has
a nonnegative balance, and the tracked payoff balance at a concrete input is
nonnegative. -/
theorem balances_never_negative_witness :
    ((⟨1, 10, 10, 0, 0, 999⟩ : WLoan)
        ∈ (simStateAt [⟨1, 20, 10, 0, 0, none, true⟩] 10 none 1).workingLoans) ∧
      (0 : ℚ) ≤ (⟨1, 10, 10, 0, 0, 999⟩ : WLoan).currentBalance ∧
      (0 : ℚ) < 5 ∧ 0 ≤ payoffBalanceAt 0 1 5 3 :=
  ⟨by decide,
    balances_never_negative.1 [⟨1, 20, 10, 0, 0, none, true⟩] 10 none 0
      ⟨1, 10, 10, 0, 0, 999⟩ (by decide),
    by norm_num,
    balances_never_negative.2 0 1 5 (by norm_num) 3⟩

/-! ## The extra-payment snapshot (C9) and the null strategy (C10) -/

/-- The extra amount (above minimum) the snapshot attributes to a loan, after
the `|| minimumPayment` fallback. -/
def extraOf (allocations : ℕ → ℚ) (loan : Loan) : ℚ :=
  (if allocations loan.id = 0 then loan.minimumPayment else allocations loan.id)
    - loan.minimumPayment

lemma extraPaymentEntry_eq (allocations : ℕ → ℚ) (acc : List (ℕ × ℚ))
    (loan : Loan) :
    extraPaymentEntry allocations acc loan
      = if extraOf allocations loan > 1/1000 then
          acc ++ [(loan.id, roundCents (extraOf allocations loan))]
        else acc := rfl

lemma foldl_extraPaymentEntry_mem (allocations : ℕ → ℚ) :
    ∀ (xs : List Loan) (acc : List (ℕ × ℚ)) (p : ℕ × ℚ),
      (p ∈ xs.foldl (extraPaymentEntry allocations) acc
        ↔ p ∈ acc ∨ ∃ l ∈ xs, l.id = p.1 ∧ extraOf allocations l > 1/1000 ∧
            p.2 = roundCents (extraOf allocations l)) := by
  intro xs
  induction xs with
  | nil => intro acc p; simp
  | cons y ys ih =>
    intro acc p
    rw [List.foldl_cons, extraPaymentEntry_eq, ih]
    constructor
    · rintro (hacc | ⟨l, hl, he, hx, hv⟩)
      · split_ifs at hacc with hy
        · rcases List.mem_append.mp hacc with h | h
          · exact Or.inl h
          · rcases List.mem_singleton.mp h with rfl
            exact Or.inr ⟨y, List.mem_cons_self y ys, rfl, hy, rfl⟩
        · exact Or.inl hacc
      · exact Or.inr ⟨l, List.mem_cons_of_mem y hl, he, hx, hv⟩
    · rintro (hacc | ⟨l, hl, he, hx, hv⟩)
      · left
        split_ifs with hy
        · exact List.mem_append.mpr (Or.inl hacc)
        · exact hacc
      · rcases List.mem_cons.mp hl with rfl | hl'
        · left
          rw [if_pos hx]
          refine List.mem_append.mpr (Or.inr (List.mem_singleton.mpr ?_))
          obtain ⟨p1, p2⟩ := p
          simp only at he hv
          rw [← he, hv]
        · exact Or.inr ⟨l, hl', he, hx, hv⟩

lemma foldl_extraPaymentEntry_nil (allocations : ℕ → ℚ) :
    ∀ (xs : List Loan) (acc : List (ℕ × ℚ)),
      (∀ l ∈ xs, ¬ (extraOf allocations l > 1/1000)) →
      xs.foldl (extraPaymentEntry allocations) acc = acc := by
  intro xs
  induction xs with
  | nil => intro acc _; rfl
  | cons y ys ih =>
    intro acc h
    rw [List.foldl_cons, extraPaymentEntry_eq,
      if_neg (h y (List.mem_cons_self y ys))]
    exact ih acc (fun l hl => h l (List.mem_cons_of_mem y hl))

/-- C9: `extraPaymentAllocations` is computed by one call to the allocator on
the full active loan set and the full requested budget; for an active loan
`l`, the pair `(l.id, v)` appears in the snapshot if and only if the
allocated amount (after the `|| minimumPayment` fallback) minus the minimum
exceeds `0.001` and `v` is that extra rounded to cents. -/
theorem extraPaymentAllocations_snapshot (loans : List Loan)
    (monthlyBudget : Option MonthlyBudget) (strategyType : Option StrategyType)
    (hnd : ((loans.filter (·.isActive)).map (·.id)).Nodup)
    {l : Loan} (hl : l ∈ loans.filter (·.isActive)) (v : ℚ) :
    ((l.id, v)
        ∈ (calculateStrategyProjections loans monthlyBudget strategyType).extraPaymentAllocations
      ↔ extraOf
          (distributeBudgetAcrossLoans (loans.filter (·.isActive))
            (match monthlyBudget with
              | some budget => budget.monthlyAllocation
              | none => calculateMonthlyObligation (loans.filter (·.isActive)))
            strategyType) l > 1/1000 ∧
        v = roundCents (extraOf
          (distributeBudgetAcrossLoans (loans.filter (·.isActive))
            (match monthlyBudget with
              | some budget => budget.monthlyAllocation
              | none => calculateMonthlyObligation (loans.filter (·.isActive)))
            strategyType) l)) := by
  simp only [calculateStrategyProjections]
  rw [foldl_extraPaymentEntry_mem]
  constructor
  · rintro (h | ⟨l', hl', he, hx, hv⟩)
    · exact absurd h (List.not_mem_nil _)
    · have : l' = l := by
        have hinj := List.inj_on_of_nodup_map hnd
        exact hinj hl' hl he
      subst this
      exact ⟨hx, hv⟩
  · rintro ⟨hx, hv⟩
    exact Or.inr ⟨l, hl, rfl, hx, hv⟩

/-- C9 witness: with the two example loans, budget 1000, avalanche, the
second-in-order loan's snapshot entry is its rounded extra (440). -/
theorem extraPaymentAllocations_snapshot_witness :
    (wfLoanA.id, (440 : ℚ))
      ∈ (calculateStrategyProjections [wfLoanA, wfLoanB] (some ⟨1000⟩)
          (some .avalanche)).extraPaymentAllocations :=
  (extraPaymentAllocations_snapshot [wfLoanA, wfLoanB] (some ⟨1000⟩)
      (some .avalanche) (by decide) (l := wfLoanA) (by decide) 440).mpr
    ⟨by decide, by decide⟩

lemma distributeBudgetAcrossLoans_none (loans : List Loan)
    (monthlyAllocation : ℚ) :
    distributeBudgetAcrossLoans loans monthlyAllocation none
      = minimumAllocations (loans.filter (·.isActive)) := rfl

/-- C10: with a null strategy the budget has no effect on any output field:
the projection record equals the one computed with no budget at all, the
savings are zero, the snapshot map is empty, and the reported projections,
total months and total interest are the baseline simulation's. -/
theorem null_strategy_ignores_budget (loans : List Loan)
    (monthlyBudget : Option MonthlyBudget)
    (hnd : ((loans.filter (·.isActive)).map (·.id)).Nodup) :
    calculateStrategyProjections loans monthlyBudget none
        = calculateStrategyProjections loans none none ∧
      (calculateStrategyProjections loans monthlyBudget none).interestSavings = 0 ∧
      (calculateStrategyProjections loans monthlyBudget none).timeSavings = 0 ∧
      (calculateStrategyProjections loans monthlyBudget none).extraPaymentAllocations
        = [] ∧
      (calculateStrategyProjections loans monthlyBudget none).loans
        = (simulateLoanPayoff (loans.filter (·.isActive))
            (calculateMonthlyObligation (loans.filter (·.isActive))) none).projections ∧
      (calculateStrategyProjections loans monthlyBudget none).totalMonths
        = (simulateLoanPayoff (loans.filter (·.isActive))
            (calculateMonthlyObligation (loans.filter (·.isActive))) none).totalMonths ∧
      (calculateStrategyProjections loans monthlyBudget none).totalInterest
        = (simulateLoanPayoff (loans.filter (·.isActive))
            (calculateMonthlyObligation (loans.filter (·.isActive))) none).totalInterest := by
  have hempty : ∀ monthlyAllocation : ℚ,
      (loans.filter (·.isActive)).foldl
        (extraPaymentEntry
          (distributeBudgetAcrossLoans (loans.filter (·.isActive))
            monthlyAllocation none)) []
      = [] := by
    intro monthlyAllocation
    refine foldl_extraPaymentEntry_nil _ _ _ (fun l hl => ?_)
    unfold extraOf
    rw [distributeBudgetAcrossLoans_none]
    have hff : (loans.filter (·.isActive)).filter (·.isActive)
        = loans.filter (·.isActive) :=
      List.filter_eq_self.mpr (fun a ha => List.of_mem_filter ha)
    rw [hff, minimumAllocations_lookup hnd hl]
    split_ifs with h0
    · simp
    · simp
  refine ⟨?_, ?_, ?_, ?_, rfl, rfl, rfl⟩
  · simp only [calculateStrategyProjections]
    rw [hempty, hempty]
  · simp only [calculateStrategyProjections]
    ring
  · simp only [calculateStrategyProjections]
    ring
  · simp only [calculateStrategyProjections]
    exact hempty _

/-- C10 witness: a concrete budget changes nothing relative to no budget. -/
theorem null_strategy_ignores_budget_witness :
    calculateStrategyProjections [wfLoanA, wfLoanB] (some ⟨777⟩) none
      = calculateStrategyProjections [wfLoanA, wfLoanB] none none :=
  (null_strategy_ignores_budget [wfLoanA, wfLoanB] (some ⟨777⟩) (by decide)).1

/-! ## Strategy-versus-baseline dominance (C8): infrastructure

The outer loop of `simulateLoanPayoff` is `simLoop`; it agrees with iterating
`simStep`, because `simStep` is the identity on exited states. -/

lemma simStep_of_done {monthlyAllocation : ℚ} {strategyType : Option StrategyType}
    {cache : ℕ → ℚ} {s : SimState}
    (h : s.workingLoans = [] ∨ 600 ≤ s.month) :
    simStep monthlyAllocation strategyType cache s = s := by
  unfold simStep
  rw [if_pos h]

lemma simLoop_eq_iterate (monthlyAllocation : ℚ)
    (strategyType : Option StrategyType) (cache : ℕ → ℚ) :
    ∀ (fuel : ℕ) (s : SimState),
      simLoop monthlyAllocation strategyType cache fuel s
        = (simStep monthlyAllocation strategyType cache)^[fuel] s := by
  intro fuel
  induction fuel with
  | zero => intro s; rfl
  | succ n ih =>
    intro s
    simp only [simLoop]
    split_ifs with h
    · exact (Function.iterate_fixed (simStep_of_done h) (n + 1)).symm
    · rw [ih, ← Function.iterate_succ_apply]

lemma simulateLoanPayoff_final (loans : List Loan) (monthlyAllocation : ℚ)
    (strategyType : Option StrategyType) :
    simLoop monthlyAllocation strategyType (buildRateCache (loans.map toWorking))
        600 (simInit loans)
      = simStateAt loans monthlyAllocation strategyType 600 :=
  simLoop_eq_iterate _ _ _ 600 _

/-! Projection bookkeeping lemmas. -/

lemma updateFirstProj_cases {projections : List PaymentProjection} {loanId : ℕ}
    {f : PaymentProjection → PaymentProjection} :
    ∀ p' ∈ updateFirstProj projections loanId f,
      p' ∈ projections ∨ ∃ p ∈ projections, p.loanId = loanId ∧ p' = f p := by
  induction projections with
  | nil => intro p' h; exact absurd h (List.not_mem_nil p')
  | cons q qs ih =>
    intro p' h
    rw [updateFirstProj] at h
    split_ifs at h with hq
    · rcases List.mem_cons.mp h with rfl | h'
      · exact Or.inr ⟨q, List.mem_cons_self q qs, hq, rfl⟩
      · exact Or.inl (List.mem_cons_of_mem q h')
    · rcases List.mem_cons.mp h with rfl | h'
      · exact Or.inl (List.mem_cons_self _ _)
      · rcases ih p' h' with h2 | ⟨p, hp, he, hv⟩
        · exact Or.inl (List.mem_cons_of_mem q h2)
        · exact Or.inr ⟨p, List.mem_cons_of_mem q hp, he, hv⟩

lemma updateFirstProj_keep {projections : List PaymentProjection} {loanId : ℕ}
    {f : PaymentProjection → PaymentProjection} :
    ∀ p ∈ projections, p.loanId ≠ loanId →
      p ∈ updateFirstProj projections loanId f := by
  induction projections with
  | nil => intro p h; exact absurd h (List.not_mem_nil p)
  | cons q qs ih =>
    intro p h hne
    rw [updateFirstProj]
    split_ifs with hq
    · rcases List.mem_cons.mp h with rfl | h'
      · exact absurd hq hne
      · exact List.mem_cons_of_mem _ h'
    · rcases List.mem_cons.mp h with rfl | h'
      · exact List.mem_cons_self _ _
      · exact List.mem_cons_of_mem q (ih p h' hne)

lemma updateFirstProj_hit {projections : List PaymentProjection} {loanId : ℕ}
    {f : PaymentProjection → PaymentProjection}
    (h : loanId ∈ projections.map (·.loanId)) :
    ∃ p ∈ projections, p.loanId = loanId ∧
      f p ∈ updateFirstProj projections loanId f := by
  induction projections with
  | nil => exact absurd h (List.not_mem_nil loanId)
  | cons q qs ih =>
    rw [updateFirstProj]
    by_cases hq : q.loanId = loanId
    · exact ⟨q, List.mem_cons_self q qs, hq,
        by rw [if_pos hq]; exact List.mem_cons_self _ _⟩
    · rw [List.map_cons, List.mem_cons] at h
      rcases h with h | h
      · exact absurd h.symm hq
      · obtain ⟨p, hp, he, hmem⟩ := ih h
        exact ⟨p, List.mem_cons_of_mem q hp, he,
          by rw [if_neg hq]; exact List.mem_cons_of_mem q hmem⟩

lemma updateFirstProj_ids {loanId : ℕ} {f : PaymentProjection → PaymentProjection}
    (hf : ∀ p, (f p).loanId = p.loanId) :
    ∀ projections : List PaymentProjection,
      (updateFirstProj projections loanId f).map (·.loanId)
        = projections.map (·.loanId) := by
  intro projections
  induction projections with
  | nil => rfl
  | cons q qs ih =>
    rw [updateFirstProj]
    split_ifs with hq
    · rw [List.map_cons, List.map_cons, hf, hq]
    · rw [List.map_cons, List.map_cons, ih]

lemma applyMonth_proj_ids (cache payments : ℕ → ℚ) (month : ℕ) :
    ∀ (ws : List WLoan) (projs : List PaymentProjection) (ti : ℚ) (po : List ℕ),
      ((applyMonth cache payments month ws projs ti po).2.1).map (·.loanId)
        = projs.map (·.loanId) := by
  intro ws
  induction ws with
  | nil => intro projs ti po; rfl
  | cons loan rest ih =>
    intro projs ti po
    simp only [applyMonth]
    split_ifs with hret
    · rw [ih]
      refine (updateFirstProj_ids ?_ _).trans (updateFirstProj_ids ?_ _) <;>
        exact fun p => rfl
    · rw [ih]
      refine updateFirstProj_ids ?_ _
      exact fun p => rfl

lemma applyMonth_proj_months_le (cache payments : ℕ → ℚ) (month : ℕ) (M : ℕ)
    (hM : month + 1 ≤ M) :
    ∀ (ws : List WLoan) (projs : List PaymentProjection) (ti : ℚ) (po : List ℕ),
      (∀ p ∈ projs, p.monthsToPayoff ≤ M) →
      ∀ p' ∈ (applyMonth cache payments month ws projs ti po).2.1,
        p'.monthsToPayoff ≤ M := by
  intro ws
  induction ws with
  | nil => intro projs ti po hp p' h'; exact hp p' h'
  | cons loan rest ih =>
    intro projs ti po hp p' h'
    simp only [applyMonth] at h'
    split_ifs at h' with hret
    · refine ih _ _ _ ?_ p' h'
      intro p2 h2
      rcases updateFirstProj_cases p2 h2 with h3 | ⟨p3, h3, _, rfl⟩
      · rcases updateFirstProj_cases p2 h3 with h4 | ⟨p4, h4, _, rfl⟩
        · exact hp p2 h4
        · exact le_trans (hp p4 h4) (le_refl M)
      · exact hM
    · refine ih _ _ _ ?_ p' h'
      intro p2 h2
      rcases updateFirstProj_cases p2 h2 with h3 | ⟨p3, h3, _, rfl⟩
      · exact hp p2 h3
      · exact hp p3 h3

lemma simStateAt_month_le (loans : List Loan) (monthlyAllocation : ℚ)
    (strategyType : Option StrategyType) :
    ∀ k, (simStateAt loans monthlyAllocation strategyType k).month ≤ 600 := by
  intro k
  induction k with
  | zero => exact Nat.zero_le 600
  | succ n ih =>
    rw [simStateAt_succ]
    unfold simStep
    split_ifs with h
    · exact ih
    · push_neg at h
      exact h.2

lemma simStateAt_proj_months_le (loans : List Loan) (monthlyAllocation : ℚ)
    (strategyType : Option StrategyType) :
    ∀ k, ∀ p ∈ (simStateAt loans monthlyAllocation strategyType k).projections,
      p.monthsToPayoff ≤ (simStateAt loans monthlyAllocation strategyType k).month := by
  intro k
  induction k with
  | zero =>
    intro p hp
    obtain ⟨l, _, rfl⟩ := List.mem_map.mp hp
    exact le_refl 0
  | succ n ih =>
    rw [simStateAt_succ]
    unfold simStep
    split_ifs with h
    · exact ih
    · intro p hp
      simp only at hp ⊢
      refine applyMonth_proj_months_le _ _ _ _ (le_refl _) _ _ _ _ ?_ p hp
      intro p2 h2
      exact le_trans (ih p2 h2) (Nat.le_succ _)

lemma foldr_max_le {M : ℕ} :
    ∀ projs : List PaymentProjection,
      (∀ p ∈ projs, p.monthsToPayoff ≤ M) →
      projs.foldr (fun p m => max p.monthsToPayoff m) 0 ≤ M := by
  intro projs
  induction projs with
  | nil => intro _; exact Nat.zero_le M
  | cons q qs ih =>
    intro h
    rw [List.foldr_cons]
    exact max_le (h q (List.mem_cons_self q qs))
      (ih (fun p hp => h p (List.mem_cons_of_mem q hp)))

lemma le_foldr_max {p0 : PaymentProjection} :
    ∀ projs : List PaymentProjection, p0 ∈ projs →
      p0.monthsToPayoff ≤ projs.foldr (fun p m => max p.monthsToPayoff m) 0 := by
  intro projs
  induction projs with
  | nil => intro h; exact absurd h (List.not_mem_nil p0)
  | cons q qs ih =>
    intro h
    rw [List.foldr_cons]
    rcases List.mem_cons.mp h with rfl | h'
    · exact le_max_left _ _
    · exact le_trans (ih h') (le_max_right _ _)

lemma finalize_months_le (M : ℕ) (final : SimState) (hM : final.month ≤ M) :
    ∀ (ws : List WLoan) (projs : List PaymentProjection),
      (∀ p ∈ projs, p.monthsToPayoff ≤ M) →
      ∀ p' ∈ ws.foldl
          (fun ps loan =>
            updateFirstProj ps loan.id fun p =>
              if p.monthsToPayoff = 0 then
                { p with
                  monthsToPayoff := final.month
                  payoffDate := addMonthsMs loan.startDate final.month }
              else p)
          projs,
        p'.monthsToPayoff ≤ M := by
  intro ws
  induction ws with
  | nil => intro projs hp p' h'; exact hp p' h'
  | cons loan rest ih =>
    intro projs hp p' h'
    rw [List.foldl_cons] at h'
    refine ih _ ?_ p' h'
    intro p2 h2
    rcases updateFirstProj_cases p2 h2 with h3 | ⟨p3, h3, _, rfl⟩
    · exact hp p2 h3
    · split_ifs
      · exact hM
      · exact hp p3 h3

/-- The reported `totalMonths` never exceeds the month counter at loop exit. -/
lemma simulateLoanPayoff_totalMonths_le (loans : List Loan)
    (monthlyAllocation : ℚ) (strategyType : Option StrategyType) :
    (simulateLoanPayoff loans monthlyAllocation strategyType).totalMonths
      ≤ (simStateAt loans monthlyAllocation strategyType 600).month := by
  unfold simulateLoanPayoff
  simp only [simulateLoanPayoff_final]
  refine foldr_max_le _ ?_
  refine finalize_months_le _ _ (le_refl _) _ _ ?_
  exact simStateAt_proj_months_le loans monthlyAllocation strategyType 600

/-! Characterisation of the `paidOffLoans` list produced by a simulated month,
and existence of projection records witnessing retirement / survival. -/

lemma monthBalanceUpdate_bal (cache payments : ℕ → ℚ) (l : WLoan) :
    (monthBalanceUpdate cache payments l).currentBalance
      = max 0 (l.currentBalance -
          min l.currentBalance
            (max 0 (payments l.id - l.currentBalance * cache l.id))) := rfl

lemma applyMonth_paidOff (cache payments : ℕ → ℚ) (month : ℕ) :
    ∀ (ws : List WLoan) (projs : List PaymentProjection) (ti : ℚ) (po : List ℕ),
      (applyMonth cache payments month ws projs ti po).2.2.2
        = po ++ (ws.filter fun l =>
            decide ((monthBalanceUpdate cache payments l).currentBalance ≤ 1/100)).map
          (·.id) := by
  intro ws
  induction ws with
  | nil => intro projs ti po; simp [applyMonth]
  | cons loan rest ih =>
    intro projs ti po
    simp only [applyMonth, List.filter_cons, ← monthBalanceUpdate_bal]
    split_ifs with hret
    · rw [ih, List.map_cons, List.append_assoc, List.singleton_append]
    · rw [ih]

lemma applyMonth_keep (cache payments : ℕ → ℚ) (month : ℕ) :
    ∀ (ws : List WLoan) (projs : List PaymentProjection) (ti : ℚ) (po : List ℕ)
      (p : PaymentProjection), p ∈ projs → p.loanId ∉ ws.map (·.id) →
      p ∈ (applyMonth cache payments month ws projs ti po).2.1 := by
  intro ws
  induction ws with
  | nil => intro projs ti po p hp _; exact hp
  | cons loan rest ih =>
    intro projs ti po p hp hni
    rw [List.map_cons, List.mem_cons] at hni
    push_neg at hni
    simp only [applyMonth]
    split_ifs with hret
    · exact ih _ _ _ p
        (updateFirstProj_keep _ (updateFirstProj_keep p hp hni.1)
          hni.1) hni.2
    · exact ih _ _ _ p (updateFirstProj_keep p hp hni.1) hni.2

lemma mem_ids_updateFirstProj {x loanId : ℕ}
    {f : PaymentProjection → PaymentProjection}
    (hf : ∀ p, (f p).loanId = p.loanId) (projections : List PaymentProjection)
    (h : x ∈ projections.map (·.loanId)) :
    x ∈ (updateFirstProj projections loanId f).map (·.loanId) := by
  rw [updateFirstProj_ids hf]
  exact h

lemma nodup_ids_updateFirstProj {loanId : ℕ}
    {f : PaymentProjection → PaymentProjection}
    (hf : ∀ p, (f p).loanId = p.loanId) (projections : List PaymentProjection)
    (h : (projections.map (·.loanId)).Nodup) :
    ((updateFirstProj projections loanId f).map (·.loanId)).Nodup := by
  rw [updateFirstProj_ids hf]
  exact h

lemma applyMonth_retire_exists (cache payments : ℕ → ℚ) (month : ℕ) :
    ∀ (ws : List WLoan) (projs : List PaymentProjection) (ti : ℚ) (po : List ℕ)
      (l : WLoan), l ∈ ws → ((ws.map (·.id)).Nodup) →
      l.id ∈ projs.map (·.loanId) →
      (monthBalanceUpdate cache payments l).currentBalance ≤ 1/100 →
      ∃ p' ∈ (applyMonth cache payments month ws projs ti po).2.1,
        p'.loanId = l.id ∧ p'.monthsToPayoff = month + 1 := by
  intro ws
  induction ws with
  | nil => intro projs ti po l hl; exact absurd hl (List.not_mem_nil l)
  | cons loan rest ih =>
    intro projs ti po l hl hnd hpin hbal
    rw [List.map_cons, List.nodup_cons] at hnd
    simp only [applyMonth, monthBalanceUpdate] at *
    rcases List.mem_cons.mp hl with rfl | hl'
    · split_ifs with hret
      · have hpin' : l.id ∈ (updateFirstProj projs l.id fun p =>
            { p with
              totalInterest := p.totalInterest + l.currentBalance * cache l.id
              monthlyPayment := max p.monthlyPayment (payments l.id) }).map
            (·.loanId) := by
          refine mem_ids_updateFirstProj ?_ _ hpin
          exact fun p => rfl
        obtain ⟨p1, _, he1, hmem1⟩ := updateFirstProj_hit
          (f := fun q =>
            { q with
              monthsToPayoff := month + 1
              payoffDate := addMonthsMs l.startDate (month + 1) }) hpin'
        refine ⟨{ p1 with
            monthsToPayoff := month + 1
            payoffDate := addMonthsMs l.startDate (month + 1) },
          applyMonth_keep _ _ _ _ _ _ _ _ hmem1 ?_, he1, rfl⟩
        rw [he1]
        exact hnd.1
      · exact absurd hbal (by simpa using hret)
    · split_ifs with hret
      · refine ih _ _ _ l hl' hnd.2
          (mem_ids_updateFirstProj ?_ _ (mem_ids_updateFirstProj ?_ _ hpin)) hbal <;>
          exact fun p => rfl
      · refine ih _ _ _ l hl' hnd.2 (mem_ids_updateFirstProj ?_ _ hpin) hbal
        exact fun p => rfl

lemma applyMonth_alive_exists (cache payments : ℕ → ℚ) (month : ℕ) :
    ∀ (ws : List WLoan) (projs : List PaymentProjection) (ti : ℚ) (po : List ℕ)
      (l : WLoan), l ∈ ws → ((ws.map (·.id)).Nodup) →
      ((projs.map (·.loanId)).Nodup) →
      ¬ (monthBalanceUpdate cache payments l).currentBalance ≤ 1/100 →
      (∃ p ∈ projs, p.loanId = l.id ∧ p.monthsToPayoff = 0) →
      ∃ p' ∈ (applyMonth cache payments month ws projs ti po).2.1,
        p'.loanId = l.id ∧ p'.monthsToPayoff = 0 := by
  intro ws
  induction ws with
  | nil => intro projs ti po l hl; exact absurd hl (List.not_mem_nil l)
  | cons loan rest ih =>
    intro projs ti po l hl hnd hpnd hbal hex
    rw [List.map_cons, List.nodup_cons] at hnd
    obtain ⟨p, hp, hpe, hp0⟩ := hex
    simp only [applyMonth, monthBalanceUpdate] at *
    rcases List.mem_cons.mp hl with rfl | hl'
    · split_ifs with hret
      · exact absurd (by simpa using hret) hbal
      · have hpin' : l.id ∈ projs.map (·.loanId) := List.mem_map.mpr ⟨p, hp, hpe⟩
        obtain ⟨p1, hp1, he1, hmem1⟩ := updateFirstProj_hit
          (f := fun q =>
            { q with
              totalInterest := q.totalInterest + l.currentBalance * cache l.id
              monthlyPayment := max q.monthlyPayment (payments l.id) }) hpin'
        have hp1p : p1 = p :=
          List.inj_on_of_nodup_map hpnd hp1 hp (he1.trans hpe.symm)
        subst hp1p
        refine ⟨{ p1 with
            totalInterest := p1.totalInterest + l.currentBalance * cache l.id
            monthlyPayment := max p1.monthlyPayment (payments l.id) },
          applyMonth_keep _ _ _ _ _ _ _ _ hmem1 ?_, he1, hp0⟩
        rw [he1]
        exact hnd.1
    · have hne : loan.id ≠ l.id := by
        intro h
        exact hnd.1 (h ▸ (List.mem_map.mpr ⟨l, hl', rfl⟩))
      have hkeep : p ∈ updateFirstProj projs loan.id fun q =>
          { q with
            totalInterest := q.totalInterest + loan.currentBalance * cache loan.id
            monthlyPayment := max q.monthlyPayment (payments loan.id) } :=
        updateFirstProj_keep p hp (fun h => hne (h.symm.trans hpe))
      split_ifs with hret
      · refine ih _ _ _ l hl' hnd.2
          (nodup_ids_updateFirstProj ?_ _ (nodup_ids_updateFirstProj ?_ _ hpnd)) hbal
          ⟨p, updateFirstProj_keep p hkeep (fun h => hne (h.symm.trans hpe)),
            hpe, hp0⟩ <;>
          exact fun q => rfl
      · refine ih _ _ _ l hl' hnd.2 (nodup_ids_updateFirstProj ?_ _ hpnd) hbal
          ⟨p, hkeep, hpe, hp0⟩
        exact fun q => rfl

lemma simStateAt_proj_ids (loans : List Loan) (monthlyAllocation : ℚ)
    (strategyType : Option StrategyType) :
    ∀ k, ((simStateAt loans monthlyAllocation strategyType k).projections).map
        (·.loanId) = loans.map (·.id) := by
  intro k
  induction k with
  | zero =>
    show ((loans.map toWorking).map initProjection).map (·.loanId) = _
    rw [List.map_map, List.map_map]
    exact List.map_congr_left (fun l _ => rfl)
  | succ n ih =>
    rw [simStateAt_succ]
    unfold simStep
    split_ifs with h
    · exact ih
    · simp only
      rw [applyMonth_proj_ids]
      exact ih

/-! The per-step projection invariant: every working loan has a projection
record with `monthsToPayoff = 0`, and as soon as the working set empties at a
positive month, some projection records exactly that month. -/

lemma simStep_proj_invariant (monthlyAllocation : ℚ)
    (strategyType : Option StrategyType) (cache : ℕ → ℚ) (s : SimState)
    (hwnd : (s.workingLoans.map (·.id)).Nodup)
    (hpnd : (s.projections.map (·.loanId)).Nodup)
    (hI : ∀ l ∈ s.workingLoans,
      ∃ p ∈ s.projections, p.loanId = l.id ∧ p.monthsToPayoff = 0)
    (hJ : s.workingLoans = [] → 0 < s.month →
      ∃ p ∈ s.projections, p.monthsToPayoff = s.month) :
    (∀ l ∈ (simStep monthlyAllocation strategyType cache s).workingLoans,
      ∃ p ∈ (simStep monthlyAllocation strategyType cache s).projections,
        p.loanId = l.id ∧ p.monthsToPayoff = 0) ∧
    ((simStep monthlyAllocation strategyType cache s).workingLoans = [] →
      0 < (simStep monthlyAllocation strategyType cache s).month →
      ∃ p ∈ (simStep monthlyAllocation strategyType cache s).projections,
        p.monthsToPayoff = (simStep monthlyAllocation strategyType cache s).month) := by
  unfold simStep
  split_ifs with hdone
  · exact ⟨hI, hJ⟩
  · push_neg at hdone
    simp only
    constructor
    · intro l' hl'
      rw [List.mem_filter] at hl'
      obtain ⟨hmem, hpred⟩ := hl'
      rw [applyMonth_fst] at hmem
      obtain ⟨l, hl, rfl⟩ := List.mem_map.mp hmem
      have hnc := of_decide_eq_true hpred
      have hnret : ¬ (monthBalanceUpdate cache
          (monthPayments strategyType monthlyAllocation cache s.workingLoans)
          l).currentBalance ≤ 1/100 := by
        intro hret
        refine hnc ?_
        rw [applyMonth_paidOff, List.nil_append]
        exact List.elem_iff.mpr
          (List.mem_map.mpr ⟨l, List.mem_filter.mpr ⟨hl, decide_eq_true hret⟩, rfl⟩)
      exact applyMonth_alive_exists cache _ s.month s.workingLoans s.projections
        s.totalInterestPaid [] l hl hwnd hpnd hnret (hI l hl)
    · intro hws _
      obtain ⟨l, rest, hcons⟩ := List.exists_cons_of_ne_nil hdone.1
      have hl : l ∈ s.workingLoans := by rw [hcons]; exact List.mem_cons_self l rest
      have hall := List.filter_eq_nil_iff.mp hws
      have hinmap : monthBalanceUpdate cache
          (monthPayments strategyType monthlyAllocation cache s.workingLoans) l
          ∈ (applyMonth cache
              (monthPayments strategyType monthlyAllocation cache s.workingLoans)
              s.month s.workingLoans s.projections s.totalInterestPaid []).1 := by
        rw [applyMonth_fst]
        exact List.mem_map.mpr ⟨l, hl, rfl⟩
      have hdrop := hall _ hinmap
      rw [decide_eq_true_iff, not_not] at hdrop
      rw [applyMonth_paidOff, List.nil_append] at hdrop
      have hmem2 := List.elem_iff.mp hdrop
      obtain ⟨l2, hl2, hid2⟩ := List.mem_map.mp hmem2
      rw [List.mem_filter] at hl2
      have hl2l : l2 = l :=
        List.inj_on_of_nodup_map hwnd hl2.1 hl hid2
      have hretl : (monthBalanceUpdate cache
          (monthPayments strategyType monthlyAllocation cache s.workingLoans)
          l).currentBalance ≤ 1/100 := by
        have := of_decide_eq_true hl2.2
        rwa [hl2l] at this
      have hpin : l.id ∈ s.projections.map (·.loanId) := by
        obtain ⟨p, hp, hpe, _⟩ := hI l hl
        exact List.mem_map.mpr ⟨p, hp, hpe⟩
      obtain ⟨p', hp', _, hm'⟩ :=
        applyMonth_retire_exists cache
          (monthPayments strategyType monthlyAllocation cache s.workingLoans)
          s.month s.workingLoans s.projections s.totalInterestPaid []
          l hl hwnd hpin hretl
      exact ⟨p', hp', hm'⟩

lemma simStateAt_proj_invariant (loans : List Loan) (monthlyAllocation : ℚ)
    (strategyType : Option StrategyType) (hnd : (loans.map (·.id)).Nodup) :
    ∀ k,
      (∀ l ∈ (simStateAt loans monthlyAllocation strategyType k).workingLoans,
        ∃ p ∈ (simStateAt loans monthlyAllocation strategyType k).projections,
          p.loanId = l.id ∧ p.monthsToPayoff = 0) ∧
      ((simStateAt loans monthlyAllocation strategyType k).workingLoans = [] →
        0 < (simStateAt loans monthlyAllocation strategyType k).month →
        ∃ p ∈ (simStateAt loans monthlyAllocation strategyType k).projections,
          p.monthsToPayoff
            = (simStateAt loans monthlyAllocation strategyType k).month) := by
  intro k
  induction k with
  | zero =>
    constructor
    · intro l hl
      exact ⟨initProjection l, List.mem_map.mpr ⟨l, hl, rfl⟩, rfl, rfl⟩
    · intro _ h
      exact absurd h (lt_irrefl 0)
  | succ n ih =>
    rw [simStateAt_succ]
    exact simStep_proj_invariant _ _ _ _
      (simStateAt_ids_nodup loans monthlyAllocation strategyType hnd n)
      (by rw [simStateAt_proj_ids]; exact hnd) ih.1 ih.2

/-! The finalisation fold of `simulateLoanPayoff` assigns the exit month to the
projection of each loan still in the working set. -/

lemma finalize_keep (final : SimState) :
    ∀ (ws : List WLoan) (projs : List PaymentProjection)
      (p : PaymentProjection), p ∈ projs → p.loanId ∉ ws.map (·.id) →
      p ∈ ws.foldl
        (fun ps loan =>
          updateFirstProj ps loan.id fun q =>
            if q.monthsToPayoff = 0 then
              { q with
                monthsToPayoff := final.month
                payoffDate := addMonthsMs loan.startDate final.month }
            else q)
        projs := by
  intro ws
  induction ws with
  | nil => intro projs p hp _; exact hp
  | cons loan rest ih =>
    intro projs p hp hni
    rw [List.map_cons, List.mem_cons] at hni
    push_neg at hni
    rw [List.foldl_cons]
    exact ih _ p (updateFirstProj_keep p hp hni.1) hni.2

lemma finalize_exists (final : SimState) :
    ∀ (ws : List WLoan) (projs : List PaymentProjection) (l : WLoan),
      l ∈ ws → (ws.map (·.id)).Nodup → (projs.map (·.loanId)).Nodup →
      (∃ p ∈ projs, p.loanId = l.id ∧ p.monthsToPayoff = 0) →
      ∃ p' ∈ ws.foldl
        (fun ps loan =>
          updateFirstProj ps loan.id fun q =>
            if q.monthsToPayoff = 0 then
              { q with
                monthsToPayoff := final.month
                payoffDate := addMonthsMs loan.startDate final.month }
            else q)
        projs, p'.monthsToPayoff = final.month := by
  intro ws
  induction ws with
  | nil => intro projs l hl; exact absurd hl (List.not_mem_nil l)
  | cons loan rest ih =>
    intro projs l hl hnd hpnd hex
    rw [List.map_cons, List.nodup_cons] at hnd
    obtain ⟨p, hp, hpe, hp0⟩ := hex
    rw [List.foldl_cons]
    rcases List.mem_cons.mp hl with rfl | hl'
    · have hpin : l.id ∈ projs.map (·.loanId) := List.mem_map.mpr ⟨p, hp, hpe⟩
      obtain ⟨p1, hp1, he1, hmem1⟩ := updateFirstProj_hit
        (f := fun q =>
          if q.monthsToPayoff = 0 then
            { q with
              monthsToPayoff := final.month
              payoffDate := addMonthsMs l.startDate final.month }
          else q) hpin
      have hp1p : p1 = p :=
        List.inj_on_of_nodup_map hpnd hp1 hp (he1.trans hpe.symm)
      subst hp1p
      refine ⟨_, finalize_keep final rest _ _ hmem1 ?_, ?_⟩
      · rw [if_pos hp0]
        exact he1 ▸ hnd.1
      · rw [if_pos hp0]
    · have hne : loan.id ≠ l.id := by
        intro h
        exact hnd.1 (h ▸ (List.mem_map.mpr ⟨l, hl', rfl⟩))
      refine ih _ l hl' hnd.2 (nodup_ids_updateFirstProj ?_ _ hpnd)
        ⟨p, updateFirstProj_keep p hp (fun h => hne (h.symm.trans hpe)), hpe, hp0⟩
      intro q
      split_ifs
      · rfl
      · rfl

/-- The month counter at loop exit never exceeds the reported `totalMonths`
(with distinct loan ids): together with `simulateLoanPayoff_totalMonths_le`
the two are equal, but only the two inequalities are needed. -/
lemma month_le_simulate_totalMonths (loans : List Loan) (monthlyAllocation : ℚ)
    (strategyType : Option StrategyType) (hnd : (loans.map (·.id)).Nodup) :
    (simStateAt loans monthlyAllocation strategyType 600).month
      ≤ (simulateLoanPayoff loans monthlyAllocation strategyType).totalMonths := by
  obtain ⟨hI, hJ⟩ := simStateAt_proj_invariant loans monthlyAllocation strategyType hnd 600
  unfold simulateLoanPayoff
  simp only [simulateLoanPayoff_final]
  cases hws : (simStateAt loans monthlyAllocation strategyType 600).workingLoans with
  | nil =>
    rcases Nat.eq_zero_or_pos
        (simStateAt loans monthlyAllocation strategyType 600).month with h0 | hpos
    · rw [h0]
      exact Nat.zero_le _
    · obtain ⟨p, hp, hpm⟩ := hJ hws hpos
      rw [List.foldl_nil]
      have hb := le_foldr_max _ hp
      rwa [hpm] at hb
  | cons l rest =>
    have hlin : l ∈ (simStateAt loans monthlyAllocation strategyType 600).workingLoans := by
      rw [hws]
      exact List.mem_cons_self l rest
    have hndws : ((l :: rest).map (·.id)).Nodup := by
      rw [← hws]
      exact simStateAt_ids_nodup loans monthlyAllocation strategyType hnd 600
    obtain ⟨p', hp', hm'⟩ := finalize_exists
      (simStateAt loans monthlyAllocation strategyType 600)
      (l :: rest)
      (simStateAt loans monthlyAllocation strategyType 600).projections
      l (List.mem_cons_self l rest) hndws
      (by rw [simStateAt_proj_ids]; exact hnd)
      (hI l hlin)
    have hb := le_foldr_max _ hp'
    rwa [hm'] at hb

/-! ## Strategy-versus-baseline dominance (C8): the coupled runs

The baseline run pays exactly the minimums each month; a strategy run pays at
least the minimums.  `BalDom xs ys` says the strategy working set `xs` is a
sub-sequence of the baseline working set `ys` in which each common loan keeps
its id and minimum payment and carries a balance no larger than the
baseline's. -/

inductive BalDom : List WLoan → List WLoan → Prop
  | nil : BalDom [] []
  | cons {ls lb : WLoan} {ts tb : List WLoan} :
      ls.id = lb.id → ls.minimumPayment = lb.minimumPayment →
      ls.currentBalance ≤ lb.currentBalance →
      BalDom ts tb → BalDom (ls :: ts) (lb :: tb)
  | skip {lb : WLoan} {ts tb : List WLoan} :
      BalDom ts tb → BalDom ts (lb :: tb)

lemma BalDom_refl : ∀ xs : List WLoan, BalDom xs xs := by
  intro xs
  induction xs with
  | nil => exact .nil
  | cons l rest ih => exact .cons rfl rfl (le_refl _) ih

lemma BalDom_nil_left : ∀ ys : List WLoan, BalDom [] ys := by
  intro ys
  induction ys with
  | nil => exact .nil
  | cons l rest ih => exact .skip ih

lemma BalDom_nil_right {xs : List WLoan} (h : BalDom xs []) : xs = [] := by
  cases h
  rfl

/-- Monotonicity of the code's per-loan monthly balance update
`max(0, balance - min(balance, max(0, payment - balance*rate)))`: a smaller
starting balance and a larger payment give a smaller (or equal) new balance,
for a nonnegative rate. -/
lemma monthBalance_mono (c bs bb ps pb : ℚ) (hc : 0 ≤ c) (_hbs : 0 ≤ bs)
    (hb : bs ≤ bb) (hp : pb ≤ ps) :
    max 0 (bs - min bs (max 0 (ps - bs * c)))
      ≤ max 0 (bb - min bb (max 0 (pb - bb * c))) := by
  have hcb : bs * c ≤ bb * c := mul_le_mul_of_nonneg_right hb hc
  have hX : max 0 (pb - bb * c) ≤ max 0 (ps - bs * c) :=
    max_le_max (le_refl 0) (by linarith)
  rcases le_total bs (max 0 (ps - bs * c)) with h1 | h1
  · rw [min_eq_left h1, sub_self]
    simp only [max_self]
    exact le_max_left 0 _
  · rw [min_eq_right h1]
    refine max_le (le_max_left _ _) ?_
    rcases le_total bb (max 0 (pb - bb * c)) with h2 | h2
    · rw [min_eq_left h2, sub_self]
      have : bs ≤ max 0 (ps - bs * c) := le_trans (le_trans hb h2) hX
      simp only [max_self]
      linarith
    · rw [min_eq_right h2]
      refine le_trans ?_ (le_max_right 0 _)
      linarith

lemma BalDom_map_update (cache pays_s pays_b : ℕ → ℚ) (hc : ∀ x, 0 ≤ cache x)
    {xs ys : List WLoan} (hdom : BalDom xs ys) :
    (∀ l ∈ xs, 0 ≤ l.currentBalance) →
    (∀ l ∈ xs, l.minimumPayment ≤ pays_s l.id) →
    (∀ l ∈ ys, pays_b l.id = l.minimumPayment) →
    BalDom (xs.map (monthBalanceUpdate cache pays_s))
      (ys.map (monthBalanceUpdate cache pays_b)) := by
  induction hdom with
  | nil => intro _ _ _; exact .nil
  | @cons ls lb ts tb hid hmin hle hrest ih =>
    intro h0 hps hpb
    rw [List.map_cons, List.map_cons]
    refine BalDom.cons hid hmin ?_
      (ih (fun l hl => h0 l (List.mem_cons_of_mem ls hl))
        (fun l hl => hps l (List.mem_cons_of_mem ls hl))
        (fun l hl => hpb l (List.mem_cons_of_mem lb hl)))
    show (monthBalanceUpdate cache pays_s ls).currentBalance
        ≤ (monthBalanceUpdate cache pays_b lb).currentBalance
    rw [monthBalanceUpdate_bal, monthBalanceUpdate_bal]
    have hpbl : pays_b lb.id = lb.minimumPayment :=
      hpb lb (List.mem_cons_self lb tb)
    have hpsl : ls.minimumPayment ≤ pays_s ls.id :=
      hps ls (List.mem_cons_self ls ts)
    have hcc : cache lb.id = cache ls.id := by rw [hid]
    rw [hcc, hpbl]
    exact monthBalance_mono (cache ls.id) ls.currentBalance lb.currentBalance
      (pays_s ls.id) lb.minimumPayment (hc ls.id)
      (h0 ls (List.mem_cons_self ls ts)) hle (hmin ▸ hpsl)
  | @skip lb ts tb hrest ih =>
    intro h0 hps hpb
    rw [List.map_cons]
    exact .skip (ih h0 hps (fun l hl => hpb l (List.mem_cons_of_mem lb hl)))

lemma BalDom_filter {xs ys : List WLoan} (hdom : BalDom xs ys) :
    BalDom (xs.filter fun l => !decide (l.currentBalance ≤ 1/100))
      (ys.filter fun l => !decide (l.currentBalance ≤ 1/100)) := by
  induction hdom with
  | nil => exact .nil
  | @cons ls lb ts tb hid hmin hle hrest ih =>
    rw [List.filter_cons, List.filter_cons]
    by_cases hb : lb.currentBalance ≤ 1/100
    · have hs : ls.currentBalance ≤ 1/100 := le_trans hle hb
      rw [if_neg (by rw [decide_eq_true hs]; simp),
        if_neg (by rw [decide_eq_true hb]; simp)]
      exact ih
    · by_cases hs : ls.currentBalance ≤ 1/100
      · rw [if_neg (by rw [decide_eq_true hs]; simp),
          if_pos (by rw [decide_eq_false hb]; simp)]
        exact .skip ih
      · rw [if_pos (by rw [decide_eq_false hs]; simp),
          if_pos (by rw [decide_eq_false hb]; simp)]
        exact .cons hid hmin hle ih
  | @skip lb ts tb hrest ih =>
    rw [List.filter_cons]
    by_cases hb : lb.currentBalance ≤ 1/100
    · rw [if_neg (by rw [decide_eq_true hb]; simp)]
      exact ih
    · rw [if_pos (by rw [decide_eq_false hb]; simp)]
      exact .skip ih

lemma interest_sum_nonneg (cache : ℕ → ℚ) (hc : ∀ x, 0 ≤ cache x) :
    ∀ ws : List WLoan, (∀ l ∈ ws, 0 ≤ l.currentBalance) →
      0 ≤ (ws.map fun l => l.currentBalance * cache l.id).sum := by
  intro ws
  induction ws with
  | nil => intro _; simp
  | cons l rest ih =>
    intro h0
    rw [List.map_cons, List.sum_cons]
    exact add_nonneg
      (mul_nonneg (h0 l (List.mem_cons_self l rest)) (hc l.id))
      (ih fun l2 h2 => h0 l2 (List.mem_cons_of_mem l h2))

lemma BalDom_interest_le (cache : ℕ → ℚ) (hc : ∀ x, 0 ≤ cache x)
    {xs ys : List WLoan} (hdom : BalDom xs ys) :
    (∀ l ∈ ys, 0 ≤ l.currentBalance) →
    (xs.map fun l => l.currentBalance * cache l.id).sum
      ≤ (ys.map fun l => l.currentBalance * cache l.id).sum := by
  induction hdom with
  | nil => intro _; exact le_refl _
  | @cons ls lb ts tb hid hmin hle hrest ih =>
    intro hy
    rw [List.map_cons, List.map_cons, List.sum_cons, List.sum_cons]
    refine add_le_add ?_ (ih fun l hl => hy l (List.mem_cons_of_mem lb hl))
    rw [hid]
    exact mul_le_mul_of_nonneg_right hle (hc lb.id)
  | @skip lb ts tb hrest ih =>
    intro hy
    rw [List.map_cons, List.sum_cons]
    have h0 : 0 ≤ lb.currentBalance * cache lb.id :=
      mul_nonneg (hy lb (List.mem_cons_self lb tb)) (hc lb.id)
    have := ih fun l hl => hy l (List.mem_cons_of_mem lb hl)
    linarith

lemma foldl_update_nonneg (vals : WLoan → ℚ) :
    ∀ (ws : List WLoan) (base : ℕ → ℚ),
      (∀ x, 0 ≤ base x) → (∀ l ∈ ws, 0 ≤ vals l) →
      ∀ x, 0 ≤ (ws.foldl (fun c l => Function.update c l.id (vals l)) base) x := by
  intro ws
  induction ws with
  | nil => intro base hb _ x; exact hb x
  | cons l rest ih =>
    intro base hb hv x
    rw [List.foldl_cons]
    refine ih _ ?_ (fun l2 h2 => hv l2 (List.mem_cons_of_mem l h2)) x
    intro y
    rw [Function.update_apply]
    split_ifs with hy
    · exact hv l (List.mem_cons_self l rest)
    · exact hb y

lemma buildRateCache_nonneg (loans : List Loan)
    (hr : ∀ l ∈ loans, 0 ≤ l.interestRate) :
    ∀ x, 0 ≤ buildRateCache (loans.map toWorking) x := by
  intro x
  unfold buildRateCache
  refine foldl_update_nonneg (fun l => calculateMonthlyRate l.interestRate)
    (loans.map toWorking) _ (fun y => le_refl 0) ?_ x
  intro l hl
  obtain ⟨l0, hl0, rfl⟩ := List.mem_map.mp hl
  have h0 : 0 ≤ l0.interestRate := hr l0 hl0
  unfold calculateMonthlyRate
  positivity

lemma simStateAt_bal_nonneg (loans : List Loan) (monthlyAllocation : ℚ)
    (strategyType : Option StrategyType)
    (hbal : ∀ l ∈ loans, 0 ≤ l.currentBalance) :
    ∀ k, ∀ l ∈ (simStateAt loans monthlyAllocation strategyType k).workingLoans,
      0 ≤ l.currentBalance := by
  intro k
  induction k with
  | zero =>
    intro l hl
    obtain ⟨l0, hl0, rfl⟩ := List.mem_map.mp hl
    exact hbal l0 hl0
  | succ n ih =>
    intro l hl
    rw [simStateAt_succ] at hl
    rcases simStep_done_or_nonneg monthlyAllocation strategyType _
        (simStateAt loans monthlyAllocation strategyType n) with ⟨_, heq⟩ | hpos
    · rw [heq] at hl
      exact ih l hl
    · exact hpos l hl

lemma simStep_month_active {monthlyAllocation : ℚ}
    {strategyType : Option StrategyType} {cache : ℕ → ℚ} {s : SimState}
    (h : ¬(s.workingLoans = [] ∨ 600 ≤ s.month)) :
    (simStep monthlyAllocation strategyType cache s).month = s.month + 1 := by
  unfold simStep
  rw [if_neg h]

lemma simStep_ti_active {monthlyAllocation : ℚ}
    {strategyType : Option StrategyType} {cache : ℕ → ℚ} {s : SimState}
    (h : ¬(s.workingLoans = [] ∨ 600 ≤ s.month)) :
    (simStep monthlyAllocation strategyType cache s).totalInterestPaid
      = s.totalInterestPaid
        + (s.workingLoans.map fun l => l.currentBalance * cache l.id).sum := by
  unfold simStep
  rw [if_neg h]
  exact applyMonth_interest cache _ s.month s.workingLoans s.projections
    s.totalInterestPaid []

lemma simStep_ws_char {monthlyAllocation : ℚ}
    {strategyType : Option StrategyType} {cache : ℕ → ℚ} {s : SimState}
    (hwnd : (s.workingLoans.map (·.id)).Nodup)
    (h : ¬(s.workingLoans = [] ∨ 600 ≤ s.month)) :
    (simStep monthlyAllocation strategyType cache s).workingLoans
      = (s.workingLoans.map
          (monthBalanceUpdate cache
            (monthPayments strategyType monthlyAllocation cache s.workingLoans))).filter
          fun l => !decide (l.currentBalance ≤ 1/100) := by
  unfold simStep
  rw [if_neg h]
  simp only
  rw [applyMonth_fst]
  refine List.filter_congr ?_
  intro l' hl'
  obtain ⟨l, hl, rfl⟩ := List.mem_map.mp hl'
  by_cases hb : (monthBalanceUpdate cache
      (monthPayments strategyType monthlyAllocation cache s.workingLoans)
      l).currentBalance ≤ 1/100
  · have hcon : ((applyMonth cache
        (monthPayments strategyType monthlyAllocation cache s.workingLoans)
        s.month s.workingLoans s.projections s.totalInterestPaid
        []).2.2.2).contains
          (monthBalanceUpdate cache
            (monthPayments strategyType monthlyAllocation cache s.workingLoans)
            l).id = true := by
      refine List.elem_iff.mpr ?_
      rw [applyMonth_paidOff, List.nil_append]
      exact List.mem_map.mpr ⟨l, List.mem_filter.mpr ⟨hl, decide_eq_true hb⟩, rfl⟩
    rw [hcon, decide_eq_true hb]
    simp
  · have hncon : ¬ ((applyMonth cache
        (monthPayments strategyType monthlyAllocation cache s.workingLoans)
        s.month s.workingLoans s.projections s.totalInterestPaid
        []).2.2.2).contains
          (monthBalanceUpdate cache
            (monthPayments strategyType monthlyAllocation cache s.workingLoans)
            l).id = true := by
      intro hcon
      have hmem := List.elem_iff.mp hcon
      rw [applyMonth_paidOff, List.nil_append] at hmem
      obtain ⟨l2, hl2, hid2⟩ := List.mem_map.mp hmem
      rw [List.mem_filter] at hl2
      have hll : l2 = l := List.inj_on_of_nodup_map hwnd hl2.1 hl hid2
      exact hb (hll ▸ of_decide_eq_true hl2.2)
    rw [Bool.eq_false_iff.mpr hncon, decide_eq_false hb]
    simp

lemma simStateAt_coupling (loans : List Loan) (as ab : ℚ)
    (st : Option StrategyType)
    (hnd : (loans.map (·.id)).Nodup)
    (hbal : ∀ l ∈ loans, 0 ≤ l.currentBalance)
    (hc : ∀ x, 0 ≤ buildRateCache (loans.map toWorking) x) :
    ∀ k,
      BalDom (simStateAt loans as st k).workingLoans
          (simStateAt loans ab none k).workingLoans ∧
      ((simStateAt loans as st k).month = (simStateAt loans ab none k).month ∨
        ((simStateAt loans as st k).workingLoans = [] ∧
          (simStateAt loans as st k).month
            ≤ (simStateAt loans ab none k).month)) ∧
      (simStateAt loans as st k).totalInterestPaid
        ≤ (simStateAt loans ab none k).totalInterestPaid := by
  intro k
  induction k with
  | zero => exact ⟨BalDom_refl _, Or.inl rfl, le_refl _⟩
  | succ n ih =>
    obtain ⟨hdom, hmon, hti⟩ := ih
    rw [simStateAt_succ loans as st n, simStateAt_succ loans ab none n]
    by_cases hdb : (simStateAt loans ab none n).workingLoans = []
        ∨ 600 ≤ (simStateAt loans ab none n).month
    · have hds : (simStateAt loans as st n).workingLoans = []
          ∨ 600 ≤ (simStateAt loans as st n).month := by
        rcases hdb with hb1 | hb2
        · exact Or.inl (BalDom_nil_right (hb1 ▸ hdom))
        · rcases hmon with he | ⟨hws, _⟩
          · exact Or.inr (by rw [he]; exact hb2)
          · exact Or.inl hws
      rw [simStep_of_done hds, simStep_of_done hdb]
      exact ⟨hdom, hmon, hti⟩
    · have hdbm : (simStateAt loans ab none n).month < 600 := by
        have h2 := hdb
        push_neg at h2
        exact h2.2
      by_cases hds : (simStateAt loans as st n).workingLoans = []
          ∨ 600 ≤ (simStateAt loans as st n).month
      · have hws : (simStateAt loans as st n).workingLoans = [] := by
          rcases hds with h1 | h2
          · exact h1
          · rcases hmon with he | ⟨h1, _⟩
            · rw [he] at h2
              exact absurd h2 (not_le.mpr hdbm)
            · exact h1
        rw [simStep_of_done hds]
        refine ⟨?_, ?_, ?_⟩
        · rw [hws]
          exact BalDom_nil_left _
        · right
          refine ⟨hws, ?_⟩
          rw [simStep_month_active hdb]
          rcases hmon with he | ⟨_, hle⟩
          · rw [he]
            exact Nat.le_succ _
          · exact le_trans hle (Nat.le_succ _)
        · rw [simStep_ti_active hdb]
          have h0 : 0 ≤ ((simStateAt loans ab none n).workingLoans.map
              fun l => l.currentBalance
                * buildRateCache (loans.map toWorking) l.id).sum :=
            interest_sum_nonneg _ hc _
              (simStateAt_bal_nonneg loans ab none hbal n)
          linarith
      · have hmeq : (simStateAt loans as st n).month
            = (simStateAt loans ab none n).month := by
          rcases hmon with he | ⟨hws, _⟩
          · exact he
          · exact absurd (Or.inl hws) hds
        refine ⟨?_, Or.inl ?_, ?_⟩
        · rw [simStep_ws_char (simStateAt_ids_nodup loans as st hnd n) hds,
            simStep_ws_char (simStateAt_ids_nodup loans ab none hnd n) hdb]
          refine BalDom_filter (BalDom_map_update _ _ _ hc hdom
            (simStateAt_bal_nonneg loans as st hbal n)
            (fun l hl => monthPayments_ge_min st as _
              (simStateAt_ids_nodup loans as st hnd n) hl)
            (fun l hl => minimumPaymentsObject_lookup
              (simStateAt_ids_nodup loans ab none hnd n) hl))
        · rw [simStep_month_active hds, simStep_month_active hdb, hmeq]
        · rw [simStep_ti_active hds, simStep_ti_active hdb]
          refine add_le_add hti ?_
          exact BalDom_interest_le _ hc hdom
            (simStateAt_bal_nonneg loans ab none hbal n)

lemma simulateLoanPayoff_totalInterest_eq (loans : List Loan)
    (monthlyAllocation : ℚ) (strategyType : Option StrategyType) :
    (simulateLoanPayoff loans monthlyAllocation strategyType).totalInterest
      = roundCents
          ((simStateAt loans monthlyAllocation strategyType 600).totalInterestPaid) := by
  unfold simulateLoanPayoff
  simp only [simulateLoanPayoff_final]

/-- A strategy run of the simulator finishes no later and accrues no more
interest than the minimum-payments baseline run, whatever the two budgets
are, for loans with distinct ids, nonnegative balances and nonnegative
rates. -/
lemma simulate_dominates (loans : List Loan) (as ab : ℚ)
    (st : Option StrategyType)
    (hnd : (loans.map (·.id)).Nodup)
    (hbal : ∀ l ∈ loans, 0 ≤ l.currentBalance)
    (hrate : ∀ l ∈ loans, 0 ≤ l.interestRate) :
    (simulateLoanPayoff loans as st).totalMonths
        ≤ (simulateLoanPayoff loans ab none).totalMonths ∧
      (simulateLoanPayoff loans as st).totalInterest
        ≤ (simulateLoanPayoff loans ab none).totalInterest := by
  have hc := buildRateCache_nonneg loans hrate
  obtain ⟨_, hmon, hti⟩ := simStateAt_coupling loans as ab st hnd hbal hc 600
  constructor
  · refine le_trans (simulateLoanPayoff_totalMonths_le loans as st) ?_
    refine le_trans ?_ (month_le_simulate_totalMonths loans ab none hnd)
    rcases hmon with he | ⟨_, hle⟩
    · exact le_of_eq he
    · exact hle
  · rw [simulateLoanPayoff_totalInterest_eq, simulateLoanPayoff_totalInterest_eq]
    exact roundCents_mono hti

/-- Two zero-rate example loans used for the C8 artifacts: balances 10 and 40,
both with minimum payment 10, so the budget equal to the sum of minimums
is 20. -/
def c8LoanA : Loan := ⟨1, 10, 10, 0, 0, none, true⟩

/-- Companion loan to `c8LoanA`. -/
def c8LoanB : Loan := ⟨2, 40, 10, 0, 0, none, true⟩

/-- C8 counterexample: with the budget exactly equal to the sum of the active
minimum payments (20), the snowball run retires loan 1 after month 1 and from
month 2 on rolls its freed minimum into loan 2 as extra payment, finishing in
3 months, while the baseline (null strategy, same budget) needs 4; so
`calculateStrategyProjections` reports `timeSavings = 1`, not the claimed 0. -/
theorem strategy_no_surplus_dominance_counterexample :
    (⟨20⟩ : MonthlyBudget).monthlyAllocation
        = calculateMonthlyObligation ([c8LoanA, c8LoanB].filter (·.isActive)) ∧
      (simulateLoanPayoff ([c8LoanA, c8LoanB].filter (·.isActive)) 20
          (some .snowball)).totalMonths = 3 ∧
      (simulateLoanPayoff ([c8LoanA, c8LoanB].filter (·.isActive))
          (calculateMonthlyObligation ([c8LoanA, c8LoanB].filter (·.isActive)))
          none).totalMonths = 4 ∧
      (calculateStrategyProjections [c8LoanA, c8LoanB] (some ⟨20⟩)
          (some .snowball)).timeSavings = 1 ∧
      ¬ (calculateStrategyProjections [c8LoanA, c8LoanB] (some ⟨20⟩)
          (some .snowball)).timeSavings = 0 :=
  ⟨by decide, by decide, by decide, by decide, by decide⟩

/-- C8 (amended): with the monthly budget equal to the sum of the active
loans' minimum payments, the strategy simulation finishes no later and
accrues no more (rounded) interest than the baseline null-strategy
simulation, so `calculateStrategyProjections` reports `timeSavings ≥ 0` and
`interestSavings ≥ 0`; equality of `totalMonths`/`totalInterest` does not
hold because retired loans' minimums roll over into extra payments under a
strategy (see the counterexample).  The data-model hypotheses: distinct
active loan ids, nonnegative balances and nonnegative rates. -/
theorem strategy_no_surplus_dominance (loans : List Loan) (st : StrategyType)
    (budget : MonthlyBudget)
    (_hb : budget.monthlyAllocation
      = calculateMonthlyObligation (loans.filter (·.isActive)))
    (hnd : ((loans.filter (·.isActive)).map (·.id)).Nodup)
    (hbal : ∀ l ∈ loans.filter (·.isActive), 0 ≤ l.currentBalance)
    (hrate : ∀ l ∈ loans.filter (·.isActive), 0 ≤ l.interestRate) :
    (simulateLoanPayoff (loans.filter (·.isActive)) budget.monthlyAllocation
        (some st)).totalMonths
      ≤ (simulateLoanPayoff (loans.filter (·.isActive))
          (calculateMonthlyObligation (loans.filter (·.isActive)))
          none).totalMonths ∧
    (simulateLoanPayoff (loans.filter (·.isActive)) budget.monthlyAllocation
        (some st)).totalInterest
      ≤ (simulateLoanPayoff (loans.filter (·.isActive))
          (calculateMonthlyObligation (loans.filter (·.isActive)))
          none).totalInterest ∧
    0 ≤ (calculateStrategyProjections loans (some budget) (some st)).timeSavings ∧
    0 ≤ (calculateStrategyProjections loans (some budget) (some st)).interestSavings := by
  have hdom := simulate_dominates (loans.filter (·.isActive))
    budget.monthlyAllocation
    (calculateMonthlyObligation (loans.filter (·.isActive)))
    (some st) hnd hbal hrate
  refine ⟨hdom.1, hdom.2, ?_, ?_⟩
  · simp only [calculateStrategyProjections]
    rw [sub_nonneg]
    exact_mod_cast hdom.1
  · simp only [calculateStrategyProjections]
    rw [sub_nonneg]
    exact hdom.2

/-- C8 witness: the amended theorem applied to the two concrete loans with
the exact-minimums budget 20 and the snowball strategy. -/
theorem strategy_no_surplus_dominance_witness :
    (⟨20⟩ : MonthlyBudget).monthlyAllocation
        = calculateMonthlyObligation ([c8LoanA, c8LoanB].filter (·.isActive)) ∧
      0 ≤ (calculateStrategyProjections [c8LoanA, c8LoanB] (some ⟨20⟩)
          (some .snowball)).timeSavings ∧
      0 ≤ (calculateStrategyProjections [c8LoanA, c8LoanB] (some ⟨20⟩)
          (some .snowball)).interestSavings :=
  ⟨by decide,
    (strategy_no_surplus_dominance [c8LoanA, c8LoanB] .snowball ⟨20⟩ (by decide)
        (by decide) (by decide) (by decide)).2.2.1,
    (strategy_no_surplus_dominance [c8LoanA, c8LoanB] .snowball ⟨20⟩ (by decide)
        (by decide) (by decide) (by decide)).2.2.2⟩

end JLoan
